import Mathlib

/-!
Shallow embedding of djangorestframework/serializer.py (TriggeredMessaging fork).

The Python module implements a recursive, depth-limited, cycle-safe
object-to-primitive serializer (class Serializer) plus a separate
document-store (mongoengine) conversion path.  We embed:

* an explicit heap of composite Python objects (dicts, model instances,
  lists, mongo documents, mongo queryset cursors), addressed by Nat
  identities so that Python reference identity (the `is` operator, used by
  the cycle check) and cyclic object graphs are representable;
* the serializer configuration surface (fields / include / exclude /
  rename / depth / related_serializer / mapping class attributes);
* the traversal engine: serialize, serialize_model, serialize_val,
  serialize_iter, get_fields, get_default_fields, get_related_serializer,
  serialize_key, and the mongo path mongoengine_doc_to_dict together with
  the MongoQuerySet loop in serialize.

Recursion in the Python code is not structurally terminating (cyclic object
graphs can make it diverge), so the evaluator carries a fuel parameter:
a result of none means the computation did not finish within the given
fuel, i.e. models divergence when it holds for every fuel.  Fuel is only
ever consumed when entering a recursive serialize / document-conversion
call, so any terminating Python run is reproduced exactly by every
sufficiently large fuel.
-/

/-- Leaf (non-composite) Python values appearing in the graphs we model.
Django is_protected_type covers None and numbers (and dates/Decimals,
not needed by the claims); str is NOT protected and reaches
serialize_fallback, i.e. smart_unicode, which returns the text unchanged.
Booleans, floats, dates and Decimals behave exactly like pint here
(protected pass-through) and are omitted from the grammar. -/
inductive Prim where
  | pstr : String → Prim
  | pint : Int → Prim
  | pnone : Prim
deriving DecidableEq, Repr

/-- A Python value: either a leaf, or a reference to a heap object.
The Nat is the object identity (what CPython id() designates); the
cycle-detection stack compares values by identity, never by content. -/
inductive PyVal where
  | prim : Prim → PyVal
  | ref : Nat → PyVal
deriving DecidableEq, Repr

/-- Python reference identity (the `is` operator) as used by
`any([obj is elem for elem in self.stack])`.  Two references are identical
iff they carry the same heap id.  A primitive is never identical to a
reference; primitive-vs-primitive identity is CPython-interning dependent,
but a primitive pushed on the stack heads a leaf subtree, so no reachable
cycle check ever compares two primitives (the stacks that serialize_val
consults consist of composite ancestors only). -/
def isId : PyVal → PyVal → Bool
  | PyVal.ref i, PyVal.ref j => i == j
  | _, _ => false

/-- A naive datetime value, as stored in a mongo document field. -/
structure PyDateTime where
  year : Nat
  month : Nat
  day : Nat
  hour : Nat
  minute : Nat
  second : Nat
  microsecond : Nat
deriving DecidableEq, Repr

/-- Zero-pad a numeral to the given width, as strftime field formatting does. -/
def padNum (width n : Nat) : String :=
  let s := toString n
  if s.length < width then String.mk (List.replicate (width - s.length) '0') ++ s else s

/-- value.strftime of the fixed format %Y-%m-%dT%H:%M:%S.%fZ used at
serializer.py line 282. -/
def strftimeISO (d : PyDateTime) : String :=
  padNum 4 d.year ++ "-" ++ padNum 2 d.month ++ "-" ++ padNum 2 d.day ++ "T" ++
    padNum 2 d.hour ++ ":" ++ padNum 2 d.minute ++ ":" ++ padNum 2 d.second ++ "." ++
    padNum 6 d.microsecond ++ "Z"

/-- Values stored in a mongoengine document field, mirroring the isinstance
dispatch of _convert_to_json: str, int (long and float behave identically
and are omitted), None, plain list, plain tuple, plain dict, datetime,
ObjectId (carried as its hex text, which is what str() renders), and a
reference to a nested Document on the heap. -/
inductive MVal where
  | mstr : String → MVal
  | mint : Int → MVal
  | mnone : MVal
  | mlist : List MVal → MVal
  | mtup : List MVal → MVal
  | mdict : List (String × MVal) → MVal
  | mdt : PyDateTime → MVal
  | moid : String → MVal
  | mdocref : Nat → MVal

/-- Composite Python objects living on the heap.  The constructors follow
the isinstance branches of Serializer.serialize: dict and models.Model go
to serialize_model (a model instance carries its meta field names, its
meta many_to_many field names, and its attribute map); tuple / list / set /
QuerySet / generator all go to serialize_iter and are a single ordered
collection here; a MongoQuerySet is a cursor yielding Document references,
where an error element models an exception raised by the cursor during
iteration; a mongoengine Document carries its keyed field values; a
models.Manager resolves via .all() to its contained collection. -/
inductive PyObj where
  | pydict : List (String × PyVal) → PyObj
  | pymodel : List String → List String → List (String × PyVal) → PyObj
  | pylist : List PyVal → PyObj
  | mongoQS : List (Except Unit Nat) → PyObj
  | mongoDoc : List (String × MVal) → PyObj
  | manager : List PyVal → PyObj

/-- The heap: a partial map from object identities to objects. -/
abbrev Heap := Nat → Option PyObj

/-- Output values of the serializer: the plain data suitable for JSON/XML
rendering.  jraw marks a value that the mongo document converter stores
without any transformation (its str / int / dict / tuple pass-through
branches); jstr covers both ordinary text output and the converter-produced
text (strftime of datetimes, str of ObjectIds). -/
inductive JVal where
  | jnull : JVal
  | jint : Int → JVal
  | jstr : String → JVal
  | jarr : List JVal → JVal
  | jobj : List (String × JVal) → JVal
  | jraw : MVal → JVal

/-- First-match association-list lookup: Python dict subscription d[k]
(dict keys are unique, so first match is the match). -/
def lookupStr {α : Type} (xs : List (String × α)) (k : String) : Option α :=
  match xs with
  | [] => none
  | (k', v) :: rest => if k' = k then some v else lookupStr rest k

/-- Python dict assignment d[k] = v: overwrite in place if the key exists
(keeping its position), else append a new entry. -/
def dictAssign (xs : List (String × JVal)) (k : String) (v : JVal) : List (String × JVal) :=
  match xs with
  | [] => [(k, v)]
  | (k', v') :: rest => if k' = k then (k', v) :: rest else (k', v') :: dictAssign rest k v

/-- Construction of a Python set from a list of keys, iterated in first
occurrence order.  CPython set iteration order is arbitrary; fixing it to
first-occurrence order is unobservable downstream because the only
consumer builds a dict from the resulting names. -/
def pySetAux : List String → List String → List String
  | [], _ => []
  | x :: xs, seen => if x ∈ seen then pySetAux xs seen else x :: pySetAux xs (x :: seen)

/-- set(l): the deduplicated key list. -/
def pySetList (l : List String) : List String :=
  pySetAux l []

mutual

/-- An element of the `fields` class attribute: either a bare field name or
a 2-tuple (name, related-serialization info), see _field_to_tuple. -/
inductive FieldEntry where
  | bare : String → FieldEntry
  | pair : String → RelInfo → FieldEntry

/-- The second component of a fields 2-tuple, dispatched on by
get_related_serializer: absent (None), an inline list of sub-fields, an
explicit Serializer class, or the name of a registered Serializer class. -/
inductive RelInfo where
  | noneI : RelInfo
  | inlineI : List FieldEntry → RelInfo
  | classI : SerOpts → RelInfo
  | nameI : String → RelInfo

/-- The class-level configuration surface of a Serializer class:
fields, include, exclude, rename, depth, related_serializer, and the
mapping attribute consulted (via getattr with fallback {}) by the mongo
branches of serialize. -/
inductive SerOpts where
  | mk : List FieldEntry → List String → List String → List (String × String) →
      Option Int → Option SerOpts → List (String × String) → SerOpts

end

/-- Name of a field entry. -/
def FieldEntry.name : FieldEntry → String
  | FieldEntry.bare n => n
  | FieldEntry.pair n _ => n

/-- The fields class attribute. -/
def SerOpts.fields : SerOpts → List FieldEntry
  | SerOpts.mk f _ _ _ _ _ _ => f

/-- The include class attribute. -/
def SerOpts.include' : SerOpts → List String
  | SerOpts.mk _ i _ _ _ _ _ => i

/-- The exclude class attribute. -/
def SerOpts.exclude : SerOpts → List String
  | SerOpts.mk _ _ e _ _ _ _ => e

/-- The rename class attribute. -/
def SerOpts.rename : SerOpts → List (String × String)
  | SerOpts.mk _ _ _ r _ _ _ => r

/-- The depth class attribute. -/
def SerOpts.depth : SerOpts → Option Int
  | SerOpts.mk _ _ _ _ d _ _ => d

/-- The related_serializer class attribute. -/
def SerOpts.related_serializer : SerOpts → Option SerOpts
  | SerOpts.mk _ _ _ _ _ r _ => r

/-- The mapping attribute used by the mongo branches of serialize; a class
without the attribute behaves exactly like mapping = {}. -/
def SerOpts.mapping : SerOpts → List (String × String)
  | SerOpts.mk _ _ _ _ _ _ m => m

/-- The base Serializer class: fields = (), include = (), exclude = (),
rename = {}, depth = None, related_serializer = None, no mapping attribute. -/
def baseSerializer : SerOpts :=
  SerOpts.mk [] [] [] [] none none []

/-- The module-level _serializers registry.  The _RegisterSerializer
metaclass records every Serializer subclass by class name; with only the
base class defined (the situation of every claim) it holds exactly the
base entry.  The runtime re-registration of OnTheFlySerializer classes
only affects later nameI lookups and is not modeled. -/
def _serializers : List (String × SerOpts) :=
  [("Serializer", baseSerializer)]

/-- A Serializer instance: its class attributes, its effective depth and
its ancestor stack. -/
structure Ser where
  opts : SerOpts
  depth : Option Int
  stack : List PyVal

/-- Serializer.__init__(depth, stack): the instance depth is the argument
when it is not None, else the class attribute; the stack argument is
stored as given (the mutable [] default is never mutated: serialize_val
always copies before appending). -/
def Ser.init (cls : SerOpts) (depth : Option Int) (stack : List PyVal) : Ser :=
  { opts := cls
    depth := match depth with
      | none => cls.depth
      | some d => some d
    stack := stack }

/-- The helper _field_to_tuple: a bare name becomes (name, None). -/
def _field_to_tuple : FieldEntry → String × RelInfo
  | FieldEntry.bare n => (n, RelInfo.noneI)
  | FieldEntry.pair n i => (n, i)

/-- The helper _fields_to_list. -/
def _fields_to_list (fs : List FieldEntry) : List (String × RelInfo) :=
  fs.map _field_to_tuple

/-- The object being serialized by serialize_model: a dict, or a model
instance (meta persisted field names, meta many_to_many field names,
attribute map).  get_default_fields is only ever applied to these two
shapes. -/
inductive Inst where
  | dictI : List (String × PyVal) → Inst
  | modelI : List String → List String → List (String × PyVal) → Inst
deriving Repr

/-- get_default_fields: for a model instance the names of
opts.fields + opts.many_to_many; otherwise obj.keys(). -/
def get_default_fields : Inst → List String
  | Inst.modelI metaFields metaM2M _ => metaFields ++ metaM2M
  | Inst.dictI kvs => kvs.map Prod.fst

/-- get_fields: a non-empty fields attribute is returned verbatim;
otherwise set(default + list(include)) - set(exclude), as bare names. -/
def get_fields (o : SerOpts) (inst : Inst) : List FieldEntry :=
  match o.fields with
  | [] =>
    ((pySetList (get_default_fields inst ++ o.include')).filter
      (fun n => !(o.exclude.contains n))).map FieldEntry.bare
  | fs => fs

/-- serialize_key: rename.get(key, key) (smart_str is the identity on the
plain text keys we model). -/
def serialize_key (o : SerOpts) (k : String) : String :=
  (lookupStr o.rename k).getD k

/-- get_related_serializer: an inline field list synthesizes an anonymous
subclass of self.__class__ overriding only fields; an explicit class is
used directly; a registered name is looked up in _serializers (an
unregistered name falls through); otherwise related_serializer or the
base Serializer. -/
def get_related_serializer (s : Ser) : RelInfo → SerOpts
  | RelInfo.inlineI fs =>
    SerOpts.mk fs s.opts.include' s.opts.exclude s.opts.rename s.opts.depth
      s.opts.related_serializer s.opts.mapping
  | RelInfo.classI cls => cls
  | RelInfo.nameI n =>
    match lookupStr _serializers n with
    | some cls => cls
    | none => (s.opts.related_serializer).getD baseSerializer
  | RelInfo.noneI => (s.opts.related_serializer).getD baseSerializer

/-- The serializer method names that getattr(self, fname) resolves to a
two-argument bound method on the base Serializer class, which
serialize_model would then call as an accessor (line 215-218).  Field
names colliding with these invoke reflective behavior that the embedding
marks as unmodeled. -/
def serializerMethodNames : List String :=
  ["get_fields", "get_default_fields", "get_related_serializer", "serialize_key",
    "serialize_model", "serialize_iter", "serialize_func", "serialize_manager",
    "serialize_fallback", "serialize_max_depth", "serialize_recursion", "serialize"]

/-- Attribute names a Python dict object itself exposes; a field name that
is not a key of the dict but is one of these resolves (line 222-224) to a
built-in bound method, again unmodeled reflective behavior. -/
def dictAttrNames : List String :=
  ["keys", "values", "items", "get", "has_key", "pop", "popitem", "setdefault",
    "update", "clear", "copy", "fromkeys", "iteritems", "iterkeys", "itervalues",
    "viewitems", "viewkeys", "viewvalues"]

/-- Result of resolving a field raw value in serialize_model: found
(accessor/key/attribute hit), silently absent (the loop continues), or a
reserved reflective name whose Python behavior the embedding does not
model. -/
inductive FieldLookup where
  | found : PyVal → FieldLookup
  | notFound : FieldLookup
  | unmodeled : FieldLookup

/-- Raw-value resolution of serialize_model lines 215-226: first a
two-argument method named fname on the serializer (reserved names above),
then keyed containment lookup (dicts define __contains__, model instances
do not), then attribute lookup. -/
def resolveField (inst : Inst) (fname : String) : FieldLookup :=
  if fname ∈ serializerMethodNames then FieldLookup.unmodeled
  else
    match inst with
    | Inst.dictI kvs =>
      match lookupStr kvs fname with
      | some v => FieldLookup.found v
      | none => if fname ∈ dictAttrNames then FieldLookup.unmodeled else FieldLookup.notFound
    | Inst.modelI _ _ attrs =>
      match lookupStr attrs fname with
      | some v => FieldLookup.found v
      | none => FieldLookup.notFound

/-- Outcome of serialize_val: a value, the raised _SkipField signal
(default bodies of serialize_max_depth and serialize_recursion), or fuel
exhaustion of the recursive serialize call. -/
inductive SVRes where
  | val : JVal → SVRes
  | skipF : SVRes
  | nofuel : SVRes

/-- Wrap a recursive serialize result. -/
def svFromOpt : Option JVal → SVRes
  | some j => SVRes.val j
  | none => SVRes.nofuel

/-- serialize_val (lines 167-186), parametric in the recursive serialize
call: resolve the related serializer class; if depth is not None and is
exhausted, serialize_max_depth raises _SkipField; else if the value is
identical (reference identity) to a stack entry, serialize_recursion
raises _SkipField; else recurse through a fresh instance of the related
class with decremented depth and the value appended to a copy of the
stack. -/
def serialize_val_go (recur : Ser → PyVal → Option JVal) (s : Ser) (_key : String)
    (obj : PyVal) (info : RelInfo) : SVRes :=
  let relCls := get_related_serializer s info
  let proceed : Option Int → SVRes := fun childDepth =>
    if s.stack.any (fun elem => isId obj elem) then
      SVRes.skipF
    else
      svFromOpt (recur (Ser.init relCls childDepth (s.stack ++ [obj])) obj)
  match s.depth with
  | none => proceed none
  | some d => if d ≤ 0 then SVRes.skipF else proceed (some (d - 1))

/-- The field loop of serialize_model (lines 211-232): resolve each field
raw value (a missing field continues silently), compute the output key,
compute the output value, store it; a raised _SkipField omits the field. -/
def serialize_fields_go (recur : Ser → PyVal → Option JVal) (s : Ser) (inst : Inst) :
    List (String × RelInfo) → List (String × JVal) → Option (List (String × JVal))
  | [], data => some data
  | (fname, info) :: rest, data =>
    match resolveField inst fname with
    | FieldLookup.unmodeled => none
    | FieldLookup.notFound => serialize_fields_go recur s inst rest data
    | FieldLookup.found obj =>
      let key := serialize_key s.opts fname
      match serialize_val_go recur s fname obj info with
      | SVRes.skipF => serialize_fields_go recur s inst rest data
      | SVRes.nofuel => none
      | SVRes.val v => serialize_fields_go recur s inst rest (dictAssign data key v)

/-- serialize_model (lines 202-234). -/
def serialize_model_go (recur : Ser → PyVal → Option JVal) (s : Ser) (inst : Inst) :
    Option JVal :=
  (serialize_fields_go recur s inst (_fields_to_list (get_fields s.opts inst)) []).map
    JVal.jobj

/-- serialize_iter (lines 236-240): each element is serialized by the same
serializer instance (same depth, same stack). -/
def serialize_iter_go (recur : Ser → PyVal → Option JVal) (s : Ser) :
    List PyVal → Option (List JVal)
  | [] => some []
  | x :: xs =>
    match recur s x with
    | none => none
    | some j => (serialize_iter_go recur s xs).map (fun ys => j :: ys)

/-- Django is_protected_type over our leaves: None and numbers yes,
strings no. -/
def is_protected_type : Prim → Bool
  | Prim.pint _ => true
  | Prim.pnone => true
  | Prim.pstr _ => false

/-- A protected value passes through as is. -/
def protectedToJVal : Prim → JVal
  | Prim.pint n => JVal.jint n
  | Prim.pnone => JVal.jnull
  | Prim.pstr s => JVal.jstr s

/-- serialize_fallback: smart_unicode(obj, strings_only=True) — text stays
text, protected values would pass through unchanged. -/
def serialize_fallback : Prim → JVal
  | Prim.pstr s => JVal.jstr s
  | Prim.pint n => JVal.jint n
  | Prim.pnone => JVal.jnull

/-- The fixed exclusion list of _convert_to_json (line 267). -/
def ignoreKeys : List String :=
  ["_id", "password"]

/-- The per-entry loop of _convert_to_json (lines 268-292), parametric in
the recursive conversion of a nested Document: an ignored key not in the
mapping is skipped; the key is remapped through the mapping; then the
isinstance dispatch: nested Document (only when sub_documents) converts
recursively, datetime renders via strftime, str / dict / tuple / int pass
through unchanged, ObjectId renders via str, and any other value (None,
plain lists, Documents when sub_documents is unset) is silently dropped.
The try around me_doc[k] cannot fire on a keyed record and is not modeled;
the try around the dict store never fires. -/
def convert_loop (h : Heap) (recurDoc : List (String × MVal) → Option (List (String × JVal)))
    (sub : Bool) (mapping : List (String × String)) :
    List (String × MVal) → List (String × JVal) → Option (List (String × JVal))
  | [], struct => some struct
  | (k, value) :: rest, struct =>
    if k ∈ ignoreKeys ∧ (lookupStr mapping k).isNone then
      convert_loop h recurDoc sub mapping rest struct
    else
      let k' := (lookupStr mapping k).getD k
      match value with
      | MVal.mdocref i =>
        if sub then
          match h i with
          | some (PyObj.mongoDoc es) =>
            match recurDoc es with
            | some s' => convert_loop h recurDoc sub mapping rest
                (dictAssign struct k' (JVal.jobj s'))
            | none => none
          | _ => none
        else
          convert_loop h recurDoc sub mapping rest struct
      | MVal.mdt dt =>
        convert_loop h recurDoc sub mapping rest
          (dictAssign struct k' (JVal.jstr (strftimeISO dt)))
      | MVal.mstr s =>
        convert_loop h recurDoc sub mapping rest (dictAssign struct k' (JVal.jraw (MVal.mstr s)))
      | MVal.moid sid =>
        convert_loop h recurDoc sub mapping rest (dictAssign struct k' (JVal.jstr sid))
      | MVal.mint n =>
        convert_loop h recurDoc sub mapping rest (dictAssign struct k' (JVal.jraw (MVal.mint n)))
      | MVal.mdict kvs =>
        convert_loop h recurDoc sub mapping rest (dictAssign struct k' (JVal.jraw (MVal.mdict kvs)))
      | MVal.mtup xs =>
        convert_loop h recurDoc sub mapping rest (dictAssign struct k' (JVal.jraw (MVal.mtup xs)))
      | MVal.mnone => convert_loop h recurDoc sub mapping rest struct
      | MVal.mlist xs =>
        let _ := xs
        convert_loop h recurDoc sub mapping rest struct

/-- The closure _convert_to_json: it recurses into nested Documents with the
same sub_documents flag and mapping and no depth or cycle tracking; the
fuel bounds that recursion depth. -/
def convert_to_json (h : Heap) (sub : Bool) (mapping : List (String × String)) :
    Nat → List (String × MVal) → Option (List (String × JVal))
  | 0, _ => none
  | Nat.succ f, entries => convert_loop h (convert_to_json h sub mapping f) sub mapping entries []

/-- mongoengine_doc_to_dict (lines 261-296). -/
def mongoengine_doc_to_dict (h : Heap) (fuel : Nat) (me_doc : List (String × MVal))
    (sub_documents : Bool) (mapping : List (String × String)) :
    Option (List (String × JVal)) :=
  convert_to_json h sub_documents mapping fuel me_doc

/-- The MongoQuerySet branch of serialize (lines 315-326): json_info = []
then append the conversion (with sub_documents=True) of each document the
cursor yields; any exception raised during the iteration is caught and
logged, and the json_info accumulated so far is returned. -/
def serialize_mongo_qs (h : Heap) (mapping : List (String × String)) (fuel : Nat) :
    List (Except Unit Nat) → List JVal → Option (List JVal)
  | [], acc => some acc
  | Except.error _ :: _, acc => some acc
  | Except.ok i :: rest, acc =>
    match h i with
    | some (PyObj.mongoDoc es) =>
      match mongoengine_doc_to_dict h fuel es true mapping with
      | some s' => serialize_mongo_qs h mapping fuel rest (acc ++ [JVal.jobj s'])
      | none => none
    | _ => none

/-- serialize (lines 298-349): dispatch on the shape of obj.  Dict and
model instances go to serialize_model; tuples, lists, sets, QuerySets and
generators to serialize_iter; a MongoQuerySet to the guarded conversion
loop; a single Document to mongoengine_doc_to_dict (sub_documents left at
its False default); a Manager resolves to its collection and follows the
iterable path; protected primitives pass through; everything else falls
back to text.  The zero-argument function/bound-method branches execute
arbitrary caller code and are outside the model (no claim touches them). -/
def serialize (h : Heap) : Nat → Ser → PyVal → Option JVal
  | 0, _, _ => none
  | Nat.succ f, s, v =>
    match v with
    | PyVal.prim p =>
      if is_protected_type p then some (protectedToJVal p) else some (serialize_fallback p)
    | PyVal.ref i =>
      match h i with
      | none => none
      | some (PyObj.pydict kvs) => serialize_model_go (serialize h f) s (Inst.dictI kvs)
      | some (PyObj.pymodel mf mm attrs) =>
        serialize_model_go (serialize h f) s (Inst.modelI mf mm attrs)
      | some (PyObj.pylist xs) => (serialize_iter_go (serialize h f) s xs).map JVal.jarr
      | some (PyObj.mongoQS els) =>
        (serialize_mongo_qs h s.opts.mapping f els []).map JVal.jarr
      | some (PyObj.mongoDoc es) =>
        (mongoengine_doc_to_dict h f es false s.opts.mapping).map JVal.jobj
      | some (PyObj.manager xs) => (serialize_iter_go (serialize h f) s xs).map JVal.jarr

/-- Key lookup inside an output mapping (none on non-mappings). -/
def jlookup : JVal → String → Option JVal
  | JVal.jobj kvs, k => lookupStr kvs k
  | _, _ => none

/-- Follow the given key k steps down nested output mappings. -/
def nextPath : JVal → Nat → Option JVal
  | j, 0 => some j
  | j, Nat.succ k =>
    match jlookup j "next" with
    | some j' => nextPath j' k
    | none => none

/-! ### Concrete object graphs and auxiliary definitions used by the claims -/

/-- The two-object cyclic graph of the end-to-end example: object 0 is
alice = {"name": "Alice", "friend": bob}, object 1 is
bob = {"name": "Bob", "friend": alice}. -/
def aliceHeap : Heap := fun i =>
  if i = 0 then
    some (PyObj.pydict [("name", PyVal.prim (Prim.pstr "Alice")), ("friend", PyVal.ref 1)])
  else if i = 1 then
    some (PyObj.pydict [("name", PyVal.prim (Prim.pstr "Bob")), ("friend", PyVal.ref 0)])
  else none

/-- A heap with one dict whose single field holds a primitive value. -/
def primOnlyHeap : Heap := fun i =>
  if i = 0 then some (PyObj.pydict [("name", PyVal.prim (Prim.pstr "Alice"))]) else none

/-- The node at position i of a linear chain of n+1 dicts: a primitive
field v and, below position n, a next field referencing the next node. -/
def chainNode (n i : Nat) : PyObj :=
  if i < n then
    PyObj.pydict [("v", PyVal.prim (Prim.pint i)), ("next", PyVal.ref (i + 1))]
  else
    PyObj.pydict [("v", PyVal.prim (Prim.pint i))]

/-- The heap holding the chain nodes 0..n. -/
def chainHeap (n : Nat) : Heap := fun i =>
  if i ≤ n then some (chainNode n i) else none

/-- Expected serialization of a chain node under remaining depth d: with
depth exhausted every field is skipped; otherwise the primitive field is
emitted and the next node is expanded with depth decremented. -/
def expectedChain (n : Nat) : Nat → Nat → JVal
  | 0, _ => JVal.jobj []
  | Nat.succ d, i =>
    if i < n then
      JVal.jobj [("v", JVal.jint i), ("next", expectedChain n d (i + 1))]
    else
      JVal.jobj [("v", JVal.jint i)]

/-- Expected serialization of a chain node with unlimited depth, indexed
by the number m of nodes below it: full expansion, nothing truncated. -/
def expectedFull : Nat → Nat → JVal
  | 0, i => JVal.jobj [("v", JVal.jint i)]
  | Nat.succ m, i => JVal.jobj [("v", JVal.jint i), ("next", expectedFull m (i + 1))]

/-- A heap with two structurally equal but distinct dicts (ids 1 and 2),
for the identity-versus-equality cycle-detection claim. -/
def twinHeap : Heap := fun i =>
  if i = 1 then some (PyObj.pydict [("x", PyVal.prim (Prim.pint 1))])
  else if i = 2 then some (PyObj.pydict [("x", PyVal.prim (Prim.pint 1))])
  else none

/-- The empty heap. -/
def hEmpty : Heap := fun _ => none

/-- A heap whose document 0 holds a field referencing document 0 itself:
a self-referential record graph for the termination claim. -/
def selfDocHeap : Heap := fun i =>
  if i = 0 then some (PyObj.mongoDoc [("self", MVal.mdocref 0)]) else none

/-- A heap with a MongoQuerySet (id 0) whose cursor yields document 1,
then raises, then would yield document 1 again. -/
def qsHeap : Heap := fun i =>
  if i = 0 then some (PyObj.mongoQS [Except.ok 1, Except.error (), Except.ok 1])
  else if i = 1 then some (PyObj.mongoDoc [("a", MVal.mint 7)]) else none

/-- A heap with one two-element list object. -/
def listHeap : Heap := fun i =>
  if i = 0 then
    some (PyObj.pylist [PyVal.prim (Prim.pint 1), PyVal.prim (Prim.pstr "a")])
  else none

/-- What the MongoQuerySet loop body does to one yielded document
reference: convert the document with sub_documents=True, as a mapping. -/
def qsConvert (h : Heap) (mapping : List (String × String)) (fuel : Nat) (i : Nat) :
    Option JVal :=
  match h i with
  | some (PyObj.mongoDoc es) =>
    (mongoengine_doc_to_dict h fuel es true mapping).map JVal.jobj
  | _ => none

/-- Conversion of a list of document references, failing if any single
conversion fails. -/
def convertAll (h : Heap) (mapping : List (String × String)) (fuel : Nat) :
    List Nat → Option (List JVal)
  | [] => some []
  | i :: rest =>
    match qsConvert h mapping fuel i with
    | none => none
    | some j => (convertAll h mapping fuel rest).map (fun js => j :: js)

/-- Values of the document converter that hit one of the emitting
isinstance branches without recursing: str, int, dict, tuple, datetime,
ObjectId. -/
def handledVal : MVal → Prop
  | MVal.mstr _ => True
  | MVal.mint _ => True
  | MVal.mdict _ => True
  | MVal.mtup _ => True
  | MVal.mdt _ => True
  | MVal.moid _ => True
  | _ => False

/-- Values outside the handled set of the document converter: None, plain
lists, and nested Documents when the sub_documents flag is unset.  Such a
value falls through every isinstance branch and its key is dropped. -/
def unhandledVal (sub : Bool) : MVal → Prop
  | MVal.mnone => True
  | MVal.mlist _ => True
  | MVal.mdocref _ => sub = false
  | _ => False

/-- What the non-recursive emitting branches of _convert_to_json store for
a value: text pass-through, datetime strftime text, ObjectId text, and the
dict / tuple / int pass-through; none for values that are skipped or need
recursion. -/
def emitVal : MVal → Option JVal
  | MVal.mstr s => some (JVal.jraw (MVal.mstr s))
  | MVal.mdt dt => some (JVal.jstr (strftimeISO dt))
  | MVal.moid sid => some (JVal.jstr sid)
  | MVal.mint n => some (JVal.jraw (MVal.mint n))
  | MVal.mdict kvs => some (JVal.jraw (MVal.mdict kvs))
  | MVal.mtup xs => some (JVal.jraw (MVal.mtup xs))
  | _ => none

/-! ### Helper lemmas -/

theorem lookupStr_isSome_of_mem_keys {α : Type} (kvs : List (String × α)) (k : String)
    (hk : k ∈ kvs.map Prod.fst) : ∃ v, lookupStr kvs k = some v := by
  induction kvs with
  | nil => simp at hk
  | cons p rest ih =>
    obtain ⟨k', v⟩ := p
    by_cases h : k' = k
    · exact ⟨v, by simp [lookupStr, h]⟩
    · have hmem : k ∈ rest.map Prod.fst := by
        simp only [List.map_cons, List.mem_cons] at hk
        rcases hk with h1 | h1
        · exact absurd h1.symm h
        · exact h1
      obtain ⟨w, hw⟩ := ih hmem
      exact ⟨w, by simp [lookupStr, h, hw]⟩

theorem mem_of_lookupStr_eq_some {α : Type} (xs : List (String × α)) (k : String) (v : α)
    (h : lookupStr xs k = some v) : (k, v) ∈ xs := by
  induction xs with
  | nil => simp [lookupStr] at h
  | cons p rest ih =>
    obtain ⟨k', w⟩ := p
    by_cases hk : k' = k
    · subst hk
      have h2 : w = v := by simpa [lookupStr] using h
      subst h2
      exact List.mem_cons_self _ _
    · simp only [lookupStr, if_neg hk] at h
      exact List.mem_cons_of_mem _ (ih h)

theorem lookupStr_dictAssign_self (xs : List (String × JVal)) (k : String) (v : JVal) :
    lookupStr (dictAssign xs k v) k = some v := by
  induction xs with
  | nil => simp [dictAssign, lookupStr]
  | cons p rest ih =>
    obtain ⟨k', w⟩ := p
    by_cases hk : k' = k
    · simp [dictAssign, hk, lookupStr]
    · simp [dictAssign, hk, lookupStr, ih]

theorem lookupStr_dictAssign_ne (xs : List (String × JVal)) (k : String) (v : JVal)
    (k2 : String) (h : k ≠ k2) :
    lookupStr (dictAssign xs k v) k2 = lookupStr xs k2 := by
  induction xs with
  | nil => simp [dictAssign, lookupStr, h]
  | cons p rest ih =>
    obtain ⟨k', w⟩ := p
    by_cases hk : k' = k
    · subst hk
      simp [dictAssign, lookupStr, h]
    · simp [dictAssign, hk, lookupStr, ih]

theorem lookupStr_dictAssign_isSome (xs : List (String × JVal)) (k : String) (v : JVal)
    (k2 : String) (h : (lookupStr xs k2).isSome = true) :
    (lookupStr (dictAssign xs k v) k2).isSome = true := by
  by_cases hk : k = k2
  · subst hk
    rw [lookupStr_dictAssign_self]
    rfl
  · rw [lookupStr_dictAssign_ne xs k v k2 hk]
    exact h

theorem mem_pySetAux (x : String) (l : List String) :
    ∀ seen, x ∈ pySetAux l seen ↔ x ∈ l ∧ x ∉ seen := by
  induction l with
  | nil => intro seen; simp [pySetAux]
  | cons y ys ih =>
    intro seen
    by_cases hy : y ∈ seen
    · rw [pySetAux, if_pos hy, ih]
      constructor
      · rintro ⟨h1, h2⟩
        exact ⟨List.mem_cons_of_mem _ h1, h2⟩
      · rintro ⟨h1, h2⟩
        rcases List.mem_cons.mp h1 with h1 | h1
        · subst h1; exact absurd hy h2
        · exact ⟨h1, h2⟩
    · rw [pySetAux, if_neg hy]
      by_cases hxy : x = y
      · subst hxy
        simp [hy]
      · constructor
        · intro h1
          rcases List.mem_cons.mp h1 with h1 | h1
          · exact absurd h1 hxy
          · rcases (ih (y :: seen)).mp h1 with ⟨h2, h3⟩
            refine ⟨List.mem_cons_of_mem _ h2, fun hc => h3 (List.mem_cons_of_mem _ hc)⟩
        · rintro ⟨h1, h2⟩
          rcases List.mem_cons.mp h1 with h1 | h1
          · exact absurd h1 hxy
          · refine List.mem_cons_of_mem _ ((ih (y :: seen)).mpr ⟨h1, fun hc => ?_⟩)
            rcases List.mem_cons.mp hc with hc | hc
            · exact hxy hc
            · exact h2 hc

theorem mem_pySetList (x : String) (l : List String) : x ∈ pySetList l ↔ x ∈ l := by
  rw [pySetList, mem_pySetAux]
  simp

theorem any_isId_prim (st : List PyVal) (p : Prim) :
    st.any (fun e => isId (PyVal.prim p) e) = false := by
  induction st with
  | nil => rfl
  | cons e rest ih => cases e <;> simp [isId, ih]

theorem any_isId_ref_of_not_mem (st : List PyVal) (j : Nat) (h : PyVal.ref j ∉ st) :
    st.any (fun e => isId (PyVal.ref j) e) = false := by
  induction st with
  | nil => rfl
  | cons e rest ih =>
    simp only [List.mem_cons, not_or] at h
    rw [List.any_cons, ih h.2]
    cases e with
    | prim p => rfl
    | ref i =>
      have hji : ¬ j = i := fun hji => h.1 (by rw [hji])
      simp [isId, hji]

theorem serialize_val_go_skip_depth (recur : Ser → PyVal → Option JVal) (s : Ser)
    (key : String) (obj : PyVal) (info : RelInfo) (d : Int)
    (hdep : s.depth = some d) (hd : d ≤ 0) :
    serialize_val_go recur s key obj info = SVRes.skipF := by
  unfold serialize_val_go
  rw [hdep]
  simp [hd]

theorem serialize_val_go_skip_stack (recur : Ser → PyVal → Option JVal) (s : Ser)
    (key : String) (obj : PyVal) (info : RelInfo)
    (h : s.stack.any (fun e => isId obj e) = true) :
    serialize_val_go recur s key obj info = SVRes.skipF := by
  unfold serialize_val_go
  cases hdep : s.depth with
  | none => simp [h]
  | some d => by_cases hd : d ≤ 0 <;> simp [h, hd]

theorem serialize_fields_go_skip_all (recur : Ser → PyVal → Option JVal) (s : Ser)
    (inst : Inst) (d : Int) (hdep : s.depth = some d) (hd : d ≤ 0) :
    ∀ (fds : List (String × RelInfo)) (data : List (String × JVal)),
      (∀ fi ∈ fds, resolveField inst fi.1 ≠ FieldLookup.unmodeled) →
      serialize_fields_go recur s inst fds data = some data := by
  intro fds
  induction fds with
  | nil => intro data _; rfl
  | cons fi rest ih =>
    intro data hres
    obtain ⟨fname, info⟩ := fi
    have h1 := hres (fname, info) (List.mem_cons_self _ _)
    cases hres2 : resolveField inst fname with
    | unmodeled => exact absurd hres2 h1
    | notFound =>
      simp only [serialize_fields_go, hres2]
      exact ih data (fun fi hfi => hres fi (List.mem_cons_of_mem _ hfi))
    | found obj =>
      simp only [serialize_fields_go, hres2,
        serialize_val_go_skip_depth recur s fname obj info d hdep hd]
      exact ih data (fun fi hfi => hres fi (List.mem_cons_of_mem _ hfi))

theorem get_fields_base (inst : Inst) :
    get_fields baseSerializer inst = (pySetList (get_default_fields inst)).map FieldEntry.bare := by
  show ((pySetList (get_default_fields inst ++ [])).filter
      (fun n => !(List.contains [] n))).map FieldEntry.bare = _
  rw [List.append_nil]
  congr 1
  apply List.filter_eq_self.mpr
  intro a _
  rfl

/-- Claim C1 (counterexample): serializing the cyclic alice/bob graph with
depth=None under the default policies does NOT return
a mapping name Alice, friend (name Bob): serialize pushes only field
values onto the ancestor stack, never the entry object itself, so Alice is
expanded a second time inside Bob, and only there is the cycle cut.  The
second conjunct exhibits that the friend field of Bob is present (the
claim asserts it is omitted). -/
theorem claim_C1_counterexample :
    serialize aliceHeap 10 (Ser.init baseSerializer none []) (PyVal.ref 0) =
      some (JVal.jobj [("name", JVal.jstr "Alice"),
        ("friend", JVal.jobj [("name", JVal.jstr "Bob"),
          ("friend", JVal.jobj [("name", JVal.jstr "Alice")])])]) ∧
    ((serialize aliceHeap 10 (Ser.init baseSerializer none []) (PyVal.ref 0)).bind
        (fun j => jlookup j "friend")).bind (fun j => jlookup j "friend") =
      some (JVal.jobj [("name", JVal.jstr "Alice")]) :=
  ⟨rfl, rfl⟩

/-- Claim C1 (amended): serializing alice yields
name Alice, friend (name Bob, friend (name Alice)): the entry object is
not on the ancestor stack during its own serialization, so the back
reference to Alice is followed once more; the cycle-skip fires one level
deeper, where Bob would be revisited, so the innermost Alice mapping
carries no friend field. -/
theorem claim_C1_amended :
    serialize aliceHeap 10 (Ser.init baseSerializer none []) (PyVal.ref 0) =
      some (JVal.jobj [("name", JVal.jstr "Alice"),
        ("friend", JVal.jobj [("name", JVal.jstr "Bob"),
          ("friend", JVal.jobj [("name", JVal.jstr "Alice")])])]) ∧
    jlookup (JVal.jobj [("name", JVal.jstr "Alice")]) "friend" = none :=
  ⟨rfl, rfl⟩

/-- Claim C3 (counterexample): with depth=0, a dict whose only field holds
a primitive text serializes to the EMPTY mapping: the depth-exhaustion
check in serialize_val fires before the value type is inspected, so the
primitive-valued field name is omitted, contrary to the claim that
primitive fields still appear. -/
theorem claim_C3_counterexample :
    serialize primOnlyHeap 3 (Ser.init baseSerializer (some 0) []) (PyVal.ref 0) =
      some (JVal.jobj []) ∧
    (serialize primOnlyHeap 3 (Ser.init baseSerializer (some 0) []) (PyVal.ref 0)).bind
      (fun j => jlookup j "name") = none :=
  ⟨rfl, rfl⟩

/-- Claim C3 (amended): when the configured depth is exhausted (less or
equal to 0 remaining), EVERY field of a dict is omitted, primitive-valued
fields included: serialize_val raises the skip signal before inspecting
the value, and the resulting mapping is empty.  (Field names must not
collide with the reflective serializer method names, which the embedding
leaves unmodeled.) -/
theorem claim_C3_amended (h : Heap) (kvs : List (String × PyVal)) (i : Nat) (d : Int)
    (st : List PyVal) (fuel : Nat)
    (hobj : h i = some (PyObj.pydict kvs))
    (hd : d ≤ 0)
    (hnames : ∀ k ∈ kvs.map Prod.fst, k ∉ serializerMethodNames) :
    serialize h (fuel + 1) { opts := baseSerializer, depth := some d, stack := st }
      (PyVal.ref i) = some (JVal.jobj []) := by
  have hfields : serialize_fields_go (serialize h fuel)
      { opts := baseSerializer, depth := some d, stack := st } (Inst.dictI kvs)
      (_fields_to_list (get_fields baseSerializer (Inst.dictI kvs))) [] = some [] := by
    apply serialize_fields_go_skip_all _ _ _ d rfl hd
    intro fi hfi
    simp only [_fields_to_list, List.mem_map] at hfi
    obtain ⟨fe, hfe, hfi2⟩ := hfi
    rw [get_fields_base] at hfe
    simp only [List.mem_map] at hfe
    obtain ⟨n, hn, rfl⟩ := hfe
    rw [mem_pySetList] at hn
    obtain ⟨v, hv⟩ := lookupStr_isSome_of_mem_keys kvs n hn
    subst hfi2
    simp [resolveField, _field_to_tuple, hnames n hn, hv]
  simp only [serialize]
  rw [hobj]
  show serialize_model_go (serialize h fuel)
      { opts := baseSerializer, depth := some d, stack := st } (Inst.dictI kvs) =
      some (JVal.jobj [])
  unfold serialize_model_go
  rw [hfields]
  rfl

/-- Witness for the amended C3 theorem at a concrete input. -/
theorem claim_C3_amended_witness :
    serialize primOnlyHeap 4 { opts := baseSerializer, depth := some 0, stack := [] }
      (PyVal.ref 0) = some (JVal.jobj []) :=
  claim_C3_amended primOnlyHeap [("name", PyVal.prim (Prim.pstr "Alice"))] 0 0 [] 3 rfl
    (by decide) (by decide)

/-- Claim C8: with the sub_documents flag set, the document conversion
path recurses into nested records with no depth limit and no cycle
detection, and on the self-referential record graph of selfDocHeap it
does not terminate: no amount of fuel produces a result. -/
theorem claim_C8_nontermination (fuel : Nat) :
    mongoengine_doc_to_dict selfDocHeap fuel [("self", MVal.mdocref 0)] true [] = none := by
  induction fuel with
  | zero => rfl
  | succ f ih =>
    have ih2 : convert_to_json selfDocHeap true [] f [("self", MVal.mdocref 0)] = none := ih
    show convert_loop selfDocHeap (convert_to_json selfDocHeap true [] f) true []
        [("self", MVal.mdocref 0)] [] = none
    simp [convert_loop, selfDocHeap, ignoreKeys, lookupStr, ih2]

/-- Claim C9 (counterexample): with the remapping table sending the
internal identifier key to another name, a record whose identifier value
is a none-value produces an output with NO entry under the remapped key:
the claim that the value is emitted under the remapped key fails, because
the isinstance dispatch drops unhandled value types even for remapped
keys. -/
theorem claim_C9_counterexample :
    mongoengine_doc_to_dict hEmpty 1 [("_id", MVal.mnone)] false [("_id", "id")] =
      some [] ∧
    (mongoengine_doc_to_dict hEmpty 1 [("_id", MVal.mnone)] false [("_id", "id")]).map
      (fun out => (lookupStr out "id").isSome) = some false :=
  ⟨rfl, rfl⟩

theorem convert_loop_unhandled_cons (h : Heap)
    (recurDoc : List (String × MVal) → Option (List (String × JVal)))
    (sub : Bool) (mapping : List (String × String)) (k : String) (v : MVal)
    (hv : unhandledVal sub v) (rest : List (String × MVal)) (struct : List (String × JVal)) :
    convert_loop h recurDoc sub mapping ((k, v) :: rest) struct =
      convert_loop h recurDoc sub mapping rest struct := by
  by_cases hig : k ∈ ignoreKeys ∧ (lookupStr mapping k).isNone
  · cases v <;> simp only [convert_loop, if_pos hig]
  · cases v with
    | mnone => simp only [convert_loop, if_neg hig]
    | mlist xs => simp only [convert_loop, if_neg hig]
    | mdocref i =>
      have hsub : sub = false := hv
      subst hsub
      simp [convert_loop, hig]
    | mstr s => exact hv.elim
    | mint n => exact hv.elim
    | mtup xs => exact hv.elim
    | mdict kvs => exact hv.elim
    | mdt dt => exact hv.elim
    | moid s => exact hv.elim

theorem convert_loop_tail_congr (h : Heap)
    (recurDoc : List (String × MVal) → Option (List (String × JVal)))
    (sub : Bool) (mapping : List (String × String)) (e : String × MVal)
    (t1 t2 : List (String × MVal))
    (ht : ∀ struct, convert_loop h recurDoc sub mapping t1 struct =
      convert_loop h recurDoc sub mapping t2 struct) :
    ∀ struct, convert_loop h recurDoc sub mapping (e :: t1) struct =
      convert_loop h recurDoc sub mapping (e :: t2) struct := by
  intro struct
  obtain ⟨k, v⟩ := e
  by_cases hig : k ∈ ignoreKeys ∧ (lookupStr mapping k).isNone
  · simp only [convert_loop, if_pos hig]
    exact ht struct
  · cases v with
    | mnone =>
      simp only [convert_loop, if_neg hig]
      exact ht struct
    | mlist xs =>
      simp only [convert_loop, if_neg hig]
      exact ht struct
    | mstr s =>
      simp only [convert_loop, if_neg hig]
      exact ht _
    | mint n =>
      simp only [convert_loop, if_neg hig]
      exact ht _
    | mtup xs =>
      simp only [convert_loop, if_neg hig]
      exact ht _
    | mdict kvs =>
      simp only [convert_loop, if_neg hig]
      exact ht _
    | mdt dt =>
      simp only [convert_loop, if_neg hig]
      exact ht _
    | moid s =>
      simp only [convert_loop, if_neg hig]
      exact ht _
    | mdocref i =>
      have hig2 : ¬(k ∈ ignoreKeys ∧ lookupStr mapping k = none) := by
        simpa [Option.isNone_iff_eq_none] using hig
      cases sub with
      | false =>
        simp only [convert_loop, if_neg hig]
        exact ht struct
      | true =>
        cases hhi : h i with
        | none => simp [convert_loop, hhi, hig2]
        | some obj =>
          cases obj with
          | mongoDoc es =>
            cases hres : recurDoc es with
            | none => simp [convert_loop, hhi, hres, hig2]
            | some s2 => simp [convert_loop, hhi, hres, hig2, ht]
          | pydict kvs => simp [convert_loop, hhi, hig2]
          | pymodel a b c => simp [convert_loop, hhi, hig2]
          | pylist xs => simp [convert_loop, hhi, hig2]
          | mongoQS els => simp [convert_loop, hhi, hig2]
          | manager xs => simp [convert_loop, hhi, hig2]

theorem convert_loop_removal (h : Heap)
    (recurDoc : List (String × MVal) → Option (List (String × JVal)))
    (sub : Bool) (mapping : List (String × String)) (k : String) (v : MVal)
    (hv : unhandledVal sub v) :
    ∀ (d1 d2 : List (String × MVal)) (struct : List (String × JVal)),
      convert_loop h recurDoc sub mapping (d1 ++ (k, v) :: d2) struct =
        convert_loop h recurDoc sub mapping (d1 ++ d2) struct := by
  intro d1
  induction d1 with
  | nil =>
    intro d2 struct
    exact convert_loop_unhandled_cons h recurDoc sub mapping k v hv d2 struct
  | cons e t ih =>
    intro d2 struct
    rw [List.cons_append, List.cons_append]
    exact convert_loop_tail_congr h recurDoc sub mapping e _ _ (fun st => ih d2 st) struct

/-- Claim C10: an entry whose value is outside the handled set of the
document converter (a none-value, a plain list, or a nested record when
the sub_documents flag is unset) is silently dropped: removing such an
entry from the record changes nothing (no error, no fallback text
conversion), and a record consisting only of such an entry converts to
the empty mapping, so the output can lack keys the record has. -/
theorem claim_C10_unhandled_omitted :
    (∀ (h : Heap) (fuel : Nat) (sub : Bool) (mapping : List (String × String))
        (d1 d2 : List (String × MVal)) (k : String) (v : MVal),
        unhandledVal sub v →
        mongoengine_doc_to_dict h fuel (d1 ++ (k, v) :: d2) sub mapping =
          mongoengine_doc_to_dict h fuel (d1 ++ d2) sub mapping) ∧
    (∀ (h : Heap) (fuel : Nat) (sub : Bool) (mapping : List (String × String))
        (k : String) (v : MVal),
        unhandledVal sub v →
        mongoengine_doc_to_dict h (fuel + 1) [(k, v)] sub mapping = some []) := by
  constructor
  · intro h fuel sub mapping d1 d2 k v hv
    cases fuel with
    | zero => rfl
    | succ f =>
      show convert_loop h (convert_to_json h sub mapping f) sub mapping
          (d1 ++ (k, v) :: d2) [] =
        convert_loop h (convert_to_json h sub mapping f) sub mapping (d1 ++ d2) []
      exact convert_loop_removal h _ sub mapping k v hv d1 d2 []
  · intro h fuel sub mapping k v hv
    show convert_loop h (convert_to_json h sub mapping fuel) sub mapping [(k, v)] [] =
      some []
    rw [convert_loop_unhandled_cons h _ sub mapping k v hv [] []]
    rfl

/-- Witness for C10 at concrete inputs: a lone none-valued entry converts
to the empty mapping, and removing a list-valued entry from the middle of
a record leaves the conversion unchanged. -/
theorem claim_C10_witness :
    mongoengine_doc_to_dict hEmpty 1 [("x", MVal.mnone)] false [] = some [] ∧
    mongoengine_doc_to_dict hEmpty 1
        ([("s", MVal.mstr "t")] ++ ("l", MVal.mlist []) :: [("n", MVal.mint 2)]) false [] =
      mongoengine_doc_to_dict hEmpty 1 ([("s", MVal.mstr "t")] ++ [("n", MVal.mint 2)]) false [] :=
  ⟨claim_C10_unhandled_omitted.2 hEmpty 0 false [] "x" MVal.mnone trivial,
    claim_C10_unhandled_omitted.1 hEmpty 1 false [] [("s", MVal.mstr "t")]
      [("n", MVal.mint 2)] "l" (MVal.mlist []) trivial⟩

theorem convert_loop_cons_skip (h : Heap)
    (recurDoc : List (String × MVal) → Option (List (String × JVal)))
    (sub : Bool) (mapping : List (String × String)) (k0 : String) (v : MVal)
    (rest : List (String × MVal)) (struct : List (String × JVal))
    (hig : k0 ∈ ignoreKeys ∧ (lookupStr mapping k0).isNone = true) :
    convert_loop h recurDoc sub mapping ((k0, v) :: rest) struct =
      convert_loop h recurDoc sub mapping rest struct := by
  cases v <;> simp only [convert_loop, if_pos hig]

theorem convert_loop_cons_handled (h : Heap)
    (recurDoc : List (String × MVal) → Option (List (String × JVal)))
    (sub : Bool) (mapping : List (String × String)) (k0 : String) (v : MVal) (j : JVal)
    (rest : List (String × MVal)) (struct : List (String × JVal))
    (hig : ¬(k0 ∈ ignoreKeys ∧ (lookupStr mapping k0).isNone = true))
    (hj : emitVal v = some j) :
    convert_loop h recurDoc sub mapping ((k0, v) :: rest) struct =
      convert_loop h recurDoc sub mapping rest
        (dictAssign struct ((lookupStr mapping k0).getD k0) j) := by
  cases v with
  | mstr s =>
    have hj2 := Option.some.inj hj
    subst hj2
    simp only [convert_loop, if_neg hig]
  | mdt dt =>
    have hj2 := Option.some.inj hj
    subst hj2
    simp only [convert_loop, if_neg hig]
  | moid sid =>
    have hj2 := Option.some.inj hj
    subst hj2
    simp only [convert_loop, if_neg hig]
  | mint n =>
    have hj2 := Option.some.inj hj
    subst hj2
    simp only [convert_loop, if_neg hig]
  | mdict kvs =>
    have hj2 := Option.some.inj hj
    subst hj2
    simp only [convert_loop, if_neg hig]
  | mtup xs =>
    have hj2 := Option.some.inj hj
    subst hj2
    simp only [convert_loop, if_neg hig]
  | mnone => exact Option.noConfusion hj
  | mlist xs => exact Option.noConfusion hj
  | mdocref i => exact Option.noConfusion hj

theorem convert_loop_cons_docref (h : Heap)
    (recurDoc : List (String × MVal) → Option (List (String × JVal)))
    (mapping : List (String × String)) (k0 : String) (i : Nat)
    (es : List (String × MVal)) (s2 : List (String × JVal))
    (rest : List (String × MVal)) (struct : List (String × JVal))
    (hig : ¬(k0 ∈ ignoreKeys ∧ (lookupStr mapping k0).isNone = true))
    (hhi : h i = some (PyObj.mongoDoc es)) (hres : recurDoc es = some s2) :
    convert_loop h recurDoc true mapping ((k0, MVal.mdocref i) :: rest) struct =
      convert_loop h recurDoc true mapping rest
        (dictAssign struct ((lookupStr mapping k0).getD k0) (JVal.jobj s2)) := by
  simp only [convert_loop, if_neg hig, hhi, hres]
  exact if_pos trivial

theorem emitVal_isSome_of_handled (v : MVal) (hv : handledVal v) :
    ∃ j, emitVal v = some j := by
  cases v with
  | mstr s => exact ⟨_, rfl⟩
  | mdt dt => exact ⟨_, rfl⟩
  | moid sid => exact ⟨_, rfl⟩
  | mint n => exact ⟨_, rfl⟩
  | mdict kvs => exact ⟨_, rfl⟩
  | mtup xs => exact ⟨_, rfl⟩
  | mnone => exact hv.elim
  | mlist xs => exact hv.elim
  | mdocref i => exact hv.elim

theorem convert_loop_cons_inv (h : Heap)
    (recurDoc : List (String × MVal) → Option (List (String × JVal)))
    (sub : Bool) (mapping : List (String × String))
    (P : List (String × JVal) → Prop)
    (hP : ∀ struct k2 v2, P struct → P (dictAssign struct k2 v2))
    (e : String × MVal) (rest : List (String × MVal))
    (struct : List (String × JVal)) (out : List (String × JVal))
    (hstruct : P struct)
    (hconv : convert_loop h recurDoc sub mapping (e :: rest) struct = some out) :
    ∃ struct2, P struct2 ∧ convert_loop h recurDoc sub mapping rest struct2 = some out := by
  obtain ⟨k0, v⟩ := e
  by_cases hig : k0 ∈ ignoreKeys ∧ (lookupStr mapping k0).isNone = true
  · rw [convert_loop_cons_skip h recurDoc sub mapping k0 v rest struct hig] at hconv
    exact ⟨struct, hstruct, hconv⟩
  · cases hv : emitVal v with
    | some j =>
      rw [convert_loop_cons_handled h recurDoc sub mapping k0 v j rest struct hig hv] at hconv
      exact ⟨_, hP struct _ j hstruct, hconv⟩
    | none =>
      cases v with
      | mstr s => exact Option.noConfusion hv
      | mdt dt => exact Option.noConfusion hv
      | moid sid => exact Option.noConfusion hv
      | mint n => exact Option.noConfusion hv
      | mdict kvs => exact Option.noConfusion hv
      | mtup xs => exact Option.noConfusion hv
      | mnone =>
        rw [convert_loop_unhandled_cons h recurDoc sub mapping k0 MVal.mnone trivial
          rest struct] at hconv
        exact ⟨struct, hstruct, hconv⟩
      | mlist xs =>
        rw [convert_loop_unhandled_cons h recurDoc sub mapping k0 (MVal.mlist xs) trivial
          rest struct] at hconv
        exact ⟨struct, hstruct, hconv⟩
      | mdocref i =>
        cases sub with
        | false =>
          rw [convert_loop_unhandled_cons h recurDoc false mapping k0 (MVal.mdocref i) rfl
            rest struct] at hconv
          exact ⟨struct, hstruct, hconv⟩
        | true =>
          have hig2 : ¬(k0 ∈ ignoreKeys ∧ lookupStr mapping k0 = none) := by
            simpa [Option.isNone_iff_eq_none] using hig
          cases hhi : h i with
          | none => simp [convert_loop, hhi, hig2] at hconv
          | some obj =>
            cases obj with
            | mongoDoc es =>
              cases hres : recurDoc es with
              | none => simp [convert_loop, hhi, hres, hig2] at hconv
              | some s2 =>
                rw [convert_loop_cons_docref h recurDoc mapping k0 i es s2 rest struct
                  hig hhi hres] at hconv
                exact ⟨_, hP struct _ _ hstruct, hconv⟩
            | pydict kvs => simp [convert_loop, hhi, hig2] at hconv
            | pymodel a b c => simp [convert_loop, hhi, hig2] at hconv
            | pylist xs => simp [convert_loop, hhi, hig2] at hconv
            | mongoQS els => simp [convert_loop, hhi, hig2] at hconv
            | manager xs => simp [convert_loop, hhi, hig2] at hconv

theorem convert_loop_ignored_absent (h : Heap)
    (recurDoc : List (String × MVal) → Option (List (String × JVal)))
    (sub : Bool) (mapping : List (String × String)) (k : String)
    (hk : k ∈ ignoreKeys)
    (hmap : ∀ p ∈ mapping, p.1 ≠ k ∧ p.2 ≠ k) :
    ∀ (entries : List (String × MVal)) (struct out : List (String × JVal)),
      lookupStr struct k = none →
      convert_loop h recurDoc sub mapping entries struct = some out →
      lookupStr out k = none := by
  intro entries
  induction entries with
  | nil =>
    intro struct out hs hconv
    have h2 : struct = out := Option.some.inj hconv
    subst h2
    exact hs
  | cons e rest ih =>
    intro struct out hs hconv
    obtain ⟨k0, v⟩ := e
    by_cases hig : k0 ∈ ignoreKeys ∧ (lookupStr mapping k0).isNone = true
    · rw [convert_loop_cons_skip h recurDoc sub mapping k0 v rest struct hig] at hconv
      exact ih struct out hs hconv
    · have hk2 : (lookupStr mapping k0).getD k0 ≠ k := by
        cases hm : lookupStr mapping k0 with
        | some m =>
          have h3 := (hmap (k0, m) (mem_of_lookupStr_eq_some mapping k0 m hm)).2
          simpa using h3
        | none =>
          have hk0 : k0 ≠ k := by
            intro hcon
            subst hcon
            exact hig ⟨hk, by rw [hm]; rfl⟩
          simpa using hk0
      cases hv : emitVal v with
      | some j =>
        rw [convert_loop_cons_handled h recurDoc sub mapping k0 v j rest struct hig hv] at hconv
        refine ih _ out ?_ hconv
        rw [lookupStr_dictAssign_ne _ _ _ _ hk2]
        exact hs
      | none =>
        cases v with
        | mstr s => exact Option.noConfusion hv
        | mdt dt => exact Option.noConfusion hv
        | moid sid => exact Option.noConfusion hv
        | mint n => exact Option.noConfusion hv
        | mdict kvs => exact Option.noConfusion hv
        | mtup xs => exact Option.noConfusion hv
        | mnone =>
          rw [convert_loop_unhandled_cons h recurDoc sub mapping k0 MVal.mnone trivial
            rest struct] at hconv
          exact ih struct out hs hconv
        | mlist xs =>
          rw [convert_loop_unhandled_cons h recurDoc sub mapping k0 (MVal.mlist xs) trivial
            rest struct] at hconv
          exact ih struct out hs hconv
        | mdocref i =>
          cases sub with
          | false =>
            rw [convert_loop_unhandled_cons h recurDoc false mapping k0 (MVal.mdocref i) rfl
              rest struct] at hconv
            exact ih struct out hs hconv
          | true =>
            have hig2 : ¬(k0 ∈ ignoreKeys ∧ lookupStr mapping k0 = none) := by
              simpa [Option.isNone_iff_eq_none] using hig
            cases hhi : h i with
            | none => simp [convert_loop, hhi, hig2] at hconv
            | some obj =>
              cases obj with
              | mongoDoc es =>
                cases hres : recurDoc es with
                | none => simp [convert_loop, hhi, hres, hig2] at hconv
                | some s2 =>
                  rw [convert_loop_cons_docref h recurDoc mapping k0 i es s2 rest struct
                    hig hhi hres] at hconv
                  refine ih _ out ?_ hconv
                  rw [lookupStr_dictAssign_ne _ _ _ _ hk2]
                  exact hs
              | pydict kvs => simp [convert_loop, hhi, hig2] at hconv
              | pymodel a b c => simp [convert_loop, hhi, hig2] at hconv
              | pylist xs => simp [convert_loop, hhi, hig2] at hconv
              | mongoQS els => simp [convert_loop, hhi, hig2] at hconv
              | manager xs => simp [convert_loop, hhi, hig2] at hconv

theorem convert_loop_remapped_present (h : Heap)
    (recurDoc : List (String × MVal) → Option (List (String × JVal)))
    (sub : Bool) (mapping : List (String × String)) (k m : String) (v : MVal)
    (hm : lookupStr mapping k = some m) (hv : handledVal v) :
    ∀ (entries : List (String × MVal)) (struct out : List (String × JVal)),
      ((k, v) ∈ entries ∨ (lookupStr struct m).isSome = true) →
      convert_loop h recurDoc sub mapping entries struct = some out →
      (lookupStr out m).isSome = true := by
  intro entries
  induction entries with
  | nil =>
    intro struct out hpre hconv
    have h2 : struct = out := Option.some.inj hconv
    subst h2
    rcases hpre with hpre | hpre
    · exact absurd hpre (List.not_mem_nil _)
    · exact hpre
  | cons e rest ih =>
    intro struct out hpre hconv
    rcases hpre with hpre | hpre
    · rcases List.mem_cons.mp hpre with heq | hmem
      · obtain ⟨k0, v0⟩ := e
        have hkk : k = k0 := congrArg Prod.fst heq
        have hvv : v = v0 := congrArg Prod.snd heq
        subst hkk
        subst hvv
        have hig : ¬(k ∈ ignoreKeys ∧ (lookupStr mapping k).isNone = true) := by
          simp [hm]
        obtain ⟨j, hj⟩ := emitVal_isSome_of_handled v hv
        rw [convert_loop_cons_handled h recurDoc sub mapping k v j rest struct hig hj] at hconv
        rw [hm] at hconv
        refine ih _ out (Or.inr ?_) hconv
        rw [show (some m).getD k = m from rfl, lookupStr_dictAssign_self]
        rfl
      · obtain ⟨struct2, _, hconv2⟩ :=
          convert_loop_cons_inv h recurDoc sub mapping (fun _ => True)
            (fun _ _ _ _ => trivial) e rest struct out trivial hconv
        exact ih struct2 out (Or.inl hmem) hconv2
    · obtain ⟨struct2, hP2, hconv2⟩ :=
        convert_loop_cons_inv h recurDoc sub mapping
          (fun st => (lookupStr st m).isSome = true)
          (fun st k2 v2 hst => lookupStr_dictAssign_isSome st k2 v2 m hst)
          e rest struct out hpre hconv
      exact ih struct2 out (Or.inr hP2) hconv2

/-- Claim C9 (amended): the fixed exclusion list of the document converter
is the two-element list containing the internal identifier key and the
credential key, taken from a local literal and not configurable.  For any
record and remapping table: if an excluded key is mentioned nowhere in the
table (neither as a source nor as a target of a remap), the output mapping
never contains it; if the table remaps an excluded key and the record
holds it with a value of a directly handled type, the value is emitted
under the remapped key.  (As the counterexample shows, a remapped excluded
key whose value is of an unhandled type is NOT emitted; and an output key
equal to the excluded key can still appear when the table remaps some
other record key to it.) -/
theorem claim_C9_amended :
    (∀ (h : Heap) (fuel : Nat) (doc : List (String × MVal)) (sub : Bool)
        (mapping : List (String × String)) (out : List (String × JVal)) (k : String),
        k ∈ ignoreKeys →
        (∀ p ∈ mapping, p.1 ≠ k ∧ p.2 ≠ k) →
        mongoengine_doc_to_dict h fuel doc sub mapping = some out →
        lookupStr out k = none) ∧
    (∀ (h : Heap) (fuel : Nat) (doc : List (String × MVal)) (sub : Bool)
        (mapping : List (String × String)) (out : List (String × JVal))
        (k m : String) (v : MVal),
        k ∈ ignoreKeys → lookupStr mapping k = some m → (k, v) ∈ doc → handledVal v →
        mongoengine_doc_to_dict h fuel doc sub mapping = some out →
        (lookupStr out m).isSome = true) := by
  constructor
  · intro h fuel doc sub mapping out k hk hmap hconv
    cases fuel with
    | zero => exact Option.noConfusion hconv
    | succ f =>
      exact convert_loop_ignored_absent h (convert_to_json h sub mapping f) sub mapping k
        hk hmap doc [] out rfl hconv
  · intro h fuel doc sub mapping out k m v hk hm hdoc hv hconv
    cases fuel with
    | zero => exact Option.noConfusion hconv
    | succ f =>
      exact convert_loop_remapped_present h (convert_to_json h sub mapping f) sub mapping
        k m v hm hv doc [] out (Or.inl hdoc) hconv

/-- Witness for the amended C9 theorem: an unmentioned excluded key is
absent from a concrete conversion output, and a remapped excluded
ObjectId value appears under the remapped key. -/
theorem claim_C9_amended_witness :
    lookupStr [("s", JVal.jraw (MVal.mstr "t"))] "_id" = none ∧
    (lookupStr [("id", JVal.jstr "abc")] "id").isSome = true :=
  ⟨claim_C9_amended.1 hEmpty 1 [("_id", MVal.moid "a"), ("s", MVal.mstr "t")] false []
      [("s", JVal.jraw (MVal.mstr "t"))] "_id" (by decide)
      (fun p hp => absurd hp (List.not_mem_nil p)) rfl,
    claim_C9_amended.2 hEmpty 1 [("_id", MVal.moid "abc")] false [("_id", "id")]
      [("id", JVal.jstr "abc")] "_id" "id" (MVal.moid "abc") (by decide) rfl
      (List.mem_cons_self _ _) trivial rfl⟩

theorem serialize_mongo_qs_stops_at_error (h : Heap) (mapping : List (String × String)) (fuel : Nat) :
    ∀ (pre : List Nat) (rest : List (Except Unit Nat)) (acc js : List JVal),
      convertAll h mapping fuel pre = some js →
      serialize_mongo_qs h mapping fuel (pre.map Except.ok ++ Except.error () :: rest) acc =
        some (acc ++ js) := by
  intro pre
  induction pre with
  | nil =>
    intro rest acc js hconv
    have h2 : [] = js := Option.some.inj hconv
    subst h2
    simp [serialize_mongo_qs]
  | cons i pre ih =>
    intro rest acc js hconv
    cases hq : qsConvert h mapping fuel i with
    | none =>
      simp only [convertAll, hq] at hconv
      exact Option.noConfusion hconv
    | some j =>
      simp only [convertAll, hq] at hconv
      cases hall : convertAll h mapping fuel pre with
      | none => rw [hall] at hconv; exact Option.noConfusion hconv
      | some js2 =>
        rw [hall] at hconv
        have h2 : j :: js2 = js := Option.some.inj hconv
        subst h2
        unfold qsConvert at hq
        cases hhi : h i with
        | none =>
          simp only [hhi] at hq
          exact Option.noConfusion hq
        | some obj =>
          cases obj with
          | mongoDoc es =>
            simp only [hhi] at hq
            cases hd : mongoengine_doc_to_dict h fuel es true mapping with
            | none => rw [hd] at hq; exact Option.noConfusion hq
            | some s2 =>
              rw [hd] at hq
              have hj : JVal.jobj s2 = j := by simpa using hq
              subst hj
              simp only [List.map_cons, List.cons_append, serialize_mongo_qs, hhi, hd]
              have h3 := ih rest (acc ++ [JVal.jobj s2]) js2 hall
              rw [List.append_assoc] at h3
              simpa using h3
          | pydict kvs =>
            simp only [hhi] at hq
            exact Option.noConfusion hq
          | pymodel a b c =>
            simp only [hhi] at hq
            exact Option.noConfusion hq
          | pylist xs =>
            simp only [hhi] at hq
            exact Option.noConfusion hq
          | mongoQS els =>
            simp only [hhi] at hq
            exact Option.noConfusion hq
          | manager xs =>
            simp only [hhi] at hq
            exact Option.noConfusion hq

/-- Claim C7: when the MongoQuerySet cursor raises during iteration, the
exception is caught inside serialize (it never reaches the caller) and the
call returns exactly the json_info list accumulated before the failure:
the conversions of the documents yielded so far, with everything after the
failure point dropped. -/
theorem claim_C7_qs_error_caught :
    (∀ (h : Heap) (mapping : List (String × String)) (fuel : Nat) (pre : List Nat)
        (rest : List (Except Unit Nat)) (acc js : List JVal),
        convertAll h mapping fuel pre = some js →
        serialize_mongo_qs h mapping fuel (pre.map Except.ok ++ Except.error () :: rest) acc =
          some (acc ++ js)) ∧
    (∀ (h : Heap) (s : Ser) (fuel : Nat) (i : Nat) (pre : List Nat)
        (rest : List (Except Unit Nat)) (js : List JVal),
        h i = some (PyObj.mongoQS (pre.map Except.ok ++ Except.error () :: rest)) →
        convertAll h s.opts.mapping fuel pre = some js →
        serialize h (fuel + 1) s (PyVal.ref i) = some (JVal.jarr js)) := by
  constructor
  · intro h mapping fuel pre rest acc js hconv
    exact serialize_mongo_qs_stops_at_error h mapping fuel pre rest acc js hconv
  · intro h s fuel i pre rest js hhi hconv
    simp only [serialize, hhi]
    rw [serialize_mongo_qs_stops_at_error h s.opts.mapping fuel pre rest [] js hconv]
    simp

/-- Witness for C7: the concrete cursor yields document 1, then raises,
then would yield document 1 again; the result keeps only the first
conversion. -/
theorem claim_C7_witness :
    serialize qsHeap 10 (Ser.init baseSerializer none []) (PyVal.ref 0) =
      some (JVal.jarr [JVal.jobj [("a", JVal.jraw (MVal.mint 7))]]) :=
  claim_C7_qs_error_caught.2 qsHeap (Ser.init baseSerializer none []) 9 0 [1] [Except.ok 1]
    [JVal.jobj [("a", JVal.jraw (MVal.mint 7))]] rfl rfl

theorem serialize_iter_go_spec (recur : Ser → PyVal → Option JVal) (s : Ser) :
    ∀ (xs : List PyVal) (ys : List JVal),
      serialize_iter_go recur s xs = some ys →
      ys.length = xs.length ∧
      ∀ (k : Nat) (hk : k < xs.length) (hk2 : k < ys.length),
        recur s (xs.get ⟨k, hk⟩) = some (ys.get ⟨k, hk2⟩) := by
  intro xs
  induction xs with
  | nil =>
    intro ys hconv
    have h2 : [] = ys := Option.some.inj hconv
    subst h2
    exact ⟨rfl, fun k hk _ => absurd hk (Nat.not_lt_zero k)⟩
  | cons x xs ih =>
    intro ys hconv
    cases hx : recur s x with
    | none =>
      simp only [serialize_iter_go, hx] at hconv
      exact Option.noConfusion hconv
    | some j =>
      simp only [serialize_iter_go, hx] at hconv
      cases hxs : serialize_iter_go recur s xs with
      | none => rw [hxs] at hconv; exact Option.noConfusion hconv
      | some ys2 =>
        rw [hxs] at hconv
        have h2 : j :: ys2 = ys := Option.some.inj hconv
        subst h2
        obtain ⟨hlen, hidx⟩ := ih ys2 hxs
        refine ⟨by simp [hlen], ?_⟩
        intro k hk hk2
        cases k with
        | zero => exact hx
        | succ k2 => exact hidx k2 (Nat.lt_of_succ_lt_succ hk) (Nat.lt_of_succ_lt_succ hk2)

/-- Claim C6: a list-shaped object serializes through serialize_iter with
the very same serializer instance - same depth-remaining counter and same
ancestor stack, no depth decrement - and the resulting ordered sequence
has one output per element, the i-th output being the serialization of
the i-th element under that same context. -/
theorem claim_C6_iter_same_context :
    (∀ (h : Heap) (fuel : Nat) (s : Ser) (i : Nat) (xs : List PyVal),
        h i = some (PyObj.pylist xs) →
        serialize h (fuel + 1) s (PyVal.ref i) =
          (serialize_iter_go (serialize h fuel) s xs).map JVal.jarr) ∧
    (∀ (h : Heap) (fuel : Nat) (s : Ser) (xs : List PyVal) (ys : List JVal),
        serialize_iter_go (serialize h fuel) s xs = some ys →
        ys.length = xs.length ∧
        ∀ (k : Nat) (hk : k < xs.length) (hk2 : k < ys.length),
          serialize h fuel s (xs.get ⟨k, hk⟩) = some (ys.get ⟨k, hk2⟩)) := by
  constructor
  · intro h fuel s i xs hhi
    simp only [serialize, hhi]
  · intro h fuel s xs ys hconv
    exact serialize_iter_go_spec (serialize h fuel) s xs ys hconv

/-- Witness for C6 on a concrete two-element list. -/
theorem claim_C6_witness :
    serialize listHeap 5 (Ser.init baseSerializer none []) (PyVal.ref 0) =
      (serialize_iter_go (serialize listHeap 4) (Ser.init baseSerializer none [])
        [PyVal.prim (Prim.pint 1), PyVal.prim (Prim.pstr "a")]).map JVal.jarr ∧
    serialize listHeap 4 (Ser.init baseSerializer none [])
        ([PyVal.prim (Prim.pint 1), PyVal.prim (Prim.pstr "a")].get ⟨0, by decide⟩) =
      some (([JVal.jint 1, JVal.jstr "a"]).get ⟨0, by decide⟩) :=
  ⟨claim_C6_iter_same_context.1 listHeap 4 (Ser.init baseSerializer none []) 0 _ rfl,
    (claim_C6_iter_same_context.2 listHeap 4 (Ser.init baseSerializer none [])
      [PyVal.prim (Prim.pint 1), PyVal.prim (Prim.pstr "a")] [JVal.jint 1, JVal.jstr "a"]
      rfl).2 0 (by decide) (by decide)⟩

/-- Claim C4: cycle detection keys on reference identity, not structural
equality.  First part: a value identical (same object id) to some ancestor
stack entry makes serialize_val raise the skip signal, whatever the depth
setting.  Second part: a reference that is identical to NO stack entry -
its heap content may well be structurally equal to a stack entry - is
never cycle-skipped: serialize_val proceeds by the depth policy alone and
recurses through the related serializer with the value pushed onto a copy
of the stack.  Third part: in the serialize_model field loop, a field
whose resolved value is identical to a stack entry is omitted from the
output. -/
theorem claim_C4_identity_not_equality :
    (∀ (recur : Ser → PyVal → Option JVal) (s : Ser) (key : String) (obj : PyVal)
        (info : RelInfo),
        s.stack.any (fun e => isId obj e) = true →
        serialize_val_go recur s key obj info = SVRes.skipF) ∧
    (∀ (recur : Ser → PyVal → Option JVal) (s : Ser) (key : String) (j : Nat)
        (info : RelInfo),
        s.stack.any (fun e => isId (PyVal.ref j) e) = false →
        serialize_val_go recur s key (PyVal.ref j) info =
          (match s.depth with
            | none => svFromOpt (recur (Ser.init (get_related_serializer s info) none
                (s.stack ++ [PyVal.ref j])) (PyVal.ref j))
            | some d =>
              if d ≤ 0 then SVRes.skipF
              else svFromOpt (recur (Ser.init (get_related_serializer s info) (some (d - 1))
                  (s.stack ++ [PyVal.ref j])) (PyVal.ref j)))) ∧
    (∀ (recur : Ser → PyVal → Option JVal) (s : Ser) (inst : Inst) (fname : String)
        (info : RelInfo) (rest : List (String × RelInfo)) (data : List (String × JVal))
        (obj : PyVal),
        resolveField inst fname = FieldLookup.found obj →
        s.stack.any (fun e => isId obj e) = true →
        serialize_fields_go recur s inst ((fname, info) :: rest) data =
          serialize_fields_go recur s inst rest data) := by
  refine ⟨?_, ?_, ?_⟩
  · intro recur s key obj info hany
    exact serialize_val_go_skip_stack recur s key obj info hany
  · intro recur s key j info hany
    unfold serialize_val_go
    cases hdep : s.depth with
    | none => simp [hany]
    | some d => by_cases hd : d ≤ 0 <;> simp [hany, hd]
  · intro recur s inst fname info rest data obj hres hany
    simp only [serialize_fields_go, hres,
      serialize_val_go_skip_stack recur s fname obj info hany]

/-- Witness for C4 on twinHeap: objects 1 and 2 are structurally equal
dicts with distinct identities.  With object 2 itself on the stack its
serialization is skipped; with only its equal twin (object 1) on the
stack it is serialized normally, producing the full mapping. -/
theorem claim_C4_witness :
    serialize_val_go (serialize twinHeap 5)
        { opts := baseSerializer, depth := none, stack := [PyVal.ref 2] } "twin"
        (PyVal.ref 2) RelInfo.noneI = SVRes.skipF ∧
    serialize_val_go (serialize twinHeap 5)
        { opts := baseSerializer, depth := none, stack := [PyVal.ref 1] } "twin"
        (PyVal.ref 2) RelInfo.noneI =
      svFromOpt (serialize twinHeap 5
        (Ser.init (get_related_serializer
          { opts := baseSerializer, depth := none, stack := [PyVal.ref 1] } RelInfo.noneI)
          none ([PyVal.ref 1] ++ [PyVal.ref 2])) (PyVal.ref 2)) ∧
    serialize twinHeap 5
        (Ser.init baseSerializer none [PyVal.ref 1, PyVal.ref 2]) (PyVal.ref 2) =
      some (JVal.jobj [("x", JVal.jint 1)]) :=
  ⟨claim_C4_identity_not_equality.1 (serialize twinHeap 5) _ "twin" (PyVal.ref 2)
      RelInfo.noneI rfl,
    claim_C4_identity_not_equality.2.1 (serialize twinHeap 5) _ "twin" 2 RelInfo.noneI rfl,
    rfl⟩

theorem not_contains_iff (l : List String) (x : String) :
    ((!(l.contains x)) = true) ↔ x ∉ l := by
  induction l with
  | nil => simp
  | cons a t ih =>
    rw [List.contains_cons]
    simp only [Bool.not_or, Bool.and_eq_true, List.mem_cons, not_or, ih]
    constructor
    · rintro ⟨h1, h2⟩
      refine ⟨?_, h2⟩
      intro hxa
      subst hxa
      simp at h1
    · rintro ⟨h1, h2⟩
      refine ⟨?_, h2⟩
      simpa using h1

/-- Claim C5: field selection.  With empty fields, include and exclude,
the selected names are exactly the full introspectable field set of the object
(meta persisted plus many-to-many names for a model instance, the key set
for a dict).  With empty fields, the selected names are the default set
unioned with include minus exclude.  A non-empty fields attribute is used
verbatim, overriding include and exclude. -/
theorem claim_C5_field_selection :
    (∀ (o : SerOpts) (inst : Inst), o.fields = [] → o.include' = [] → o.exclude = [] →
        ∀ x, x ∈ (get_fields o inst).map FieldEntry.name ↔ x ∈ get_default_fields inst) ∧
    (∀ (o : SerOpts) (inst : Inst), o.fields = [] →
        ∀ x, x ∈ (get_fields o inst).map FieldEntry.name ↔
          (x ∈ get_default_fields inst ∨ x ∈ o.include') ∧ x ∉ o.exclude) ∧
    (∀ (o : SerOpts) (inst : Inst), o.fields ≠ [] → get_fields o inst = o.fields) := by
  have main : ∀ (o : SerOpts) (inst : Inst), o.fields = [] →
      ∀ x, x ∈ (get_fields o inst).map FieldEntry.name ↔
        (x ∈ get_default_fields inst ∨ x ∈ o.include') ∧ x ∉ o.exclude := by
    intro o inst hf x
    have hgf : get_fields o inst =
        ((pySetList (get_default_fields inst ++ o.include')).filter
          (fun n => !(o.exclude.contains n))).map FieldEntry.bare := by
      unfold get_fields
      rw [hf]
    rw [hgf]
    constructor
    · intro hx
      simp only [List.map_map, List.mem_map, Function.comp] at hx
      obtain ⟨n, hn, hnx⟩ := hx
      have hnx2 : n = x := hnx
      subst hnx2
      rw [List.mem_filter] at hn
      obtain ⟨hn1, hn2⟩ := hn
      rw [mem_pySetList, List.mem_append] at hn1
      exact ⟨hn1, (not_contains_iff _ _).mp hn2⟩
    · rintro ⟨h1, h2⟩
      simp only [List.map_map, List.mem_map, Function.comp]
      refine ⟨x, ?_, rfl⟩
      rw [List.mem_filter, mem_pySetList, List.mem_append]
      exact ⟨h1, (not_contains_iff _ _).mpr h2⟩
  refine ⟨?_, main, ?_⟩
  · intro o inst hf hi he x
    rw [main o inst hf x, hi, he]
    simp
  · intro o inst hne
    unfold get_fields
    cases hf : o.fields with
    | nil => exact absurd hf hne
    | cons f fs => rfl

/-- Witness for C5 on concrete configurations: the default field set of a
dict is its key set; include adds and exclude removes names; a non-empty
fields attribute wins. -/
theorem claim_C5_witness :
    ("a" ∈ (get_fields baseSerializer
        (Inst.dictI [("a", PyVal.prim Prim.pnone), ("b", PyVal.prim Prim.pnone)])).map
        FieldEntry.name ↔
      "a" ∈ get_default_fields
        (Inst.dictI [("a", PyVal.prim Prim.pnone), ("b", PyVal.prim Prim.pnone)])) ∧
    ("password" ∈ (get_fields (SerOpts.mk [] ["extra"] ["password"] [] none none [])
        (Inst.dictI [("a", PyVal.prim Prim.pnone), ("password", PyVal.prim Prim.pnone)])).map
        FieldEntry.name ↔
      ("password" ∈ get_default_fields
          (Inst.dictI [("a", PyVal.prim Prim.pnone), ("password", PyVal.prim Prim.pnone)]) ∨
        "password" ∈ ["extra"]) ∧ "password" ∉ ["password"]) ∧
    get_fields (SerOpts.mk [FieldEntry.bare "z"] ["extra"] ["a"] [] none none [])
        (Inst.dictI [("a", PyVal.prim Prim.pnone)]) =
      (SerOpts.mk [FieldEntry.bare "z"] ["extra"] ["a"] [] none none []).fields :=
  ⟨claim_C5_field_selection.1 baseSerializer
      (Inst.dictI [("a", PyVal.prim Prim.pnone), ("b", PyVal.prim Prim.pnone)]) rfl rfl rfl "a",
    claim_C5_field_selection.2.1 (SerOpts.mk [] ["extra"] ["password"] [] none none [])
      (Inst.dictI [("a", PyVal.prim Prim.pnone), ("password", PyVal.prim Prim.pnone)]) rfl
      "password",
    claim_C5_field_selection.2.2 (SerOpts.mk [FieldEntry.bare "z"] ["extra"] ["a"] [] none none [])
      (Inst.dictI [("a", PyVal.prim Prim.pnone)]) (List.cons_ne_nil _ _)⟩

theorem serialize_prim_eval (h : Heap) (f : Nat) (s : Ser) (p : Prim) :
    serialize h (f + 1) s (PyVal.prim p) = some (protectedToJVal p) := by
  cases p <;> rfl

theorem serialize_model_two_field (recur : Ser → PyVal → Option JVal) (d : Int)
    (st : List PyVal) (x y : PyVal) (jx jy : JVal)
    (hd : 0 < d)
    (hx : st.any (fun e => isId x e) = false)
    (hy : st.any (fun e => isId y e) = false)
    (hxv : recur (Ser.init baseSerializer (some (d - 1)) (st ++ [x])) x = some jx)
    (hyv : recur (Ser.init baseSerializer (some (d - 1)) (st ++ [y])) y = some jy) :
    serialize_model_go recur { opts := baseSerializer, depth := some d, stack := st }
      (Inst.dictI [("v", x), ("next", y)]) =
      some (JVal.jobj [("v", jx), ("next", jy)]) := by
  have hnle : ¬ d ≤ 0 := not_le.mpr hd
  have hrel : get_related_serializer
      { opts := baseSerializer, depth := some d, stack := st } RelInfo.noneI =
      baseSerializer := rfl
  have hres1 : resolveField (Inst.dictI [("v", x), ("next", y)]) "v" = FieldLookup.found x := rfl
  have hres2 : resolveField (Inst.dictI [("v", x), ("next", y)]) "next" =
      FieldLookup.found y := rfl
  have hval1 : serialize_val_go recur
      { opts := baseSerializer, depth := some d, stack := st } "v" x RelInfo.noneI =
      SVRes.val jx := by
    simp [serialize_val_go, hrel, hnle, hx, hxv, svFromOpt]
  have hval2 : serialize_val_go recur
      { opts := baseSerializer, depth := some d, stack := st } "next" y RelInfo.noneI =
      SVRes.val jy := by
    simp [serialize_val_go, hrel, hnle, hy, hyv, svFromOpt]
  show (serialize_fields_go recur { opts := baseSerializer, depth := some d, stack := st }
      (Inst.dictI [("v", x), ("next", y)])
      [("v", RelInfo.noneI), ("next", RelInfo.noneI)] []).map JVal.jobj = _
  simp only [serialize_fields_go, hres1, hres2, hval1, hval2]
  rfl

theorem serialize_model_one_field (recur : Ser → PyVal → Option JVal) (d : Int)
    (st : List PyVal) (x : PyVal) (jx : JVal)
    (hd : 0 < d)
    (hx : st.any (fun e => isId x e) = false)
    (hxv : recur (Ser.init baseSerializer (some (d - 1)) (st ++ [x])) x = some jx) :
    serialize_model_go recur { opts := baseSerializer, depth := some d, stack := st }
      (Inst.dictI [("v", x)]) = some (JVal.jobj [("v", jx)]) := by
  have hnle : ¬ d ≤ 0 := not_le.mpr hd
  have hrel : get_related_serializer
      { opts := baseSerializer, depth := some d, stack := st } RelInfo.noneI =
      baseSerializer := rfl
  have hres1 : resolveField (Inst.dictI [("v", x)]) "v" = FieldLookup.found x := rfl
  have hval1 : serialize_val_go recur
      { opts := baseSerializer, depth := some d, stack := st } "v" x RelInfo.noneI =
      SVRes.val jx := by
    simp [serialize_val_go, hrel, hnle, hx, hxv, svFromOpt]
  show (serialize_fields_go recur { opts := baseSerializer, depth := some d, stack := st }
      (Inst.dictI [("v", x)]) [("v", RelInfo.noneI)] []).map JVal.jobj = _
  simp only [serialize_fields_go, hres1, hval1]
  rfl

theorem serialize_model_two_field_none (recur : Ser → PyVal → Option JVal)
    (st : List PyVal) (x y : PyVal) (jx jy : JVal)
    (hx : st.any (fun e => isId x e) = false)
    (hy : st.any (fun e => isId y e) = false)
    (hxv : recur (Ser.init baseSerializer none (st ++ [x])) x = some jx)
    (hyv : recur (Ser.init baseSerializer none (st ++ [y])) y = some jy) :
    serialize_model_go recur { opts := baseSerializer, depth := none, stack := st }
      (Inst.dictI [("v", x), ("next", y)]) =
      some (JVal.jobj [("v", jx), ("next", jy)]) := by
  have hrel : get_related_serializer
      { opts := baseSerializer, depth := none, stack := st } RelInfo.noneI =
      baseSerializer := rfl
  have hres1 : resolveField (Inst.dictI [("v", x), ("next", y)]) "v" = FieldLookup.found x := rfl
  have hres2 : resolveField (Inst.dictI [("v", x), ("next", y)]) "next" =
      FieldLookup.found y := rfl
  have hval1 : serialize_val_go recur
      { opts := baseSerializer, depth := none, stack := st } "v" x RelInfo.noneI =
      SVRes.val jx := by
    simp [serialize_val_go, hrel, hx, hxv, svFromOpt]
  have hval2 : serialize_val_go recur
      { opts := baseSerializer, depth := none, stack := st } "next" y RelInfo.noneI =
      SVRes.val jy := by
    simp [serialize_val_go, hrel, hy, hyv, svFromOpt]
  show (serialize_fields_go recur { opts := baseSerializer, depth := none, stack := st }
      (Inst.dictI [("v", x), ("next", y)])
      [("v", RelInfo.noneI), ("next", RelInfo.noneI)] []).map JVal.jobj = _
  simp only [serialize_fields_go, hres1, hres2, hval1, hval2]
  rfl

theorem serialize_model_one_field_none (recur : Ser → PyVal → Option JVal)
    (st : List PyVal) (x : PyVal) (jx : JVal)
    (hx : st.any (fun e => isId x e) = false)
    (hxv : recur (Ser.init baseSerializer none (st ++ [x])) x = some jx) :
    serialize_model_go recur { opts := baseSerializer, depth := none, stack := st }
      (Inst.dictI [("v", x)]) = some (JVal.jobj [("v", jx)]) := by
  have hrel : get_related_serializer
      { opts := baseSerializer, depth := none, stack := st } RelInfo.noneI =
      baseSerializer := rfl
  have hres1 : resolveField (Inst.dictI [("v", x)]) "v" = FieldLookup.found x := rfl
  have hval1 : serialize_val_go recur
      { opts := baseSerializer, depth := none, stack := st } "v" x RelInfo.noneI =
      SVRes.val jx := by
    simp [serialize_val_go, hrel, hx, hxv, svFromOpt]
  show (serialize_fields_go recur { opts := baseSerializer, depth := none, stack := st }
      (Inst.dictI [("v", x)]) [("v", RelInfo.noneI)] []).map JVal.jobj = _
  simp only [serialize_fields_go, hres1, hval1]
  rfl

theorem chain_eval (n : Nat) :
    ∀ (m i : Nat), i + m = n →
    ∀ (d : Nat) (st : List PyVal) (F : Nat),
      (∀ k2, i < k2 → PyVal.ref k2 ∉ st) → m + 2 ≤ F →
      serialize (chainHeap n) F
        { opts := baseSerializer, depth := some (d : Int), stack := st }
        (PyVal.ref i) = some (expectedChain n d i) := by
  intro m
  induction m with
  | zero =>
    intro i hin d st F hst hF
    obtain rfl : i = n := by omega
    obtain ⟨F2, rfl⟩ : ∃ F2, F = F2 + 1 := ⟨F - 1, by omega⟩
    have hh : chainHeap i i = some (chainNode i i) := by
      show (if i ≤ i then some (chainNode i i) else none) = _
      rw [if_pos (le_refl i)]
    have hnode : chainNode i i = PyObj.pydict [("v", PyVal.prim (Prim.pint (i : Int)))] := by
      unfold chainNode
      rw [if_neg (lt_irrefl i)]
    simp only [serialize, hh, hnode]
    cases d with
    | zero =>
      show (serialize_fields_go (serialize (chainHeap i) F2)
          { opts := baseSerializer, depth := some ((0 : Nat) : Int), stack := st }
          (Inst.dictI [("v", PyVal.prim (Prim.pint (i : Int)))])
          [("v", RelInfo.noneI)] []).map JVal.jobj = some (expectedChain i 0 i)
      rw [serialize_fields_go_skip_all _ _ _ ((0 : Nat) : Int) rfl (by simp) _ []
        (fun fi hfi => by
          rw [List.mem_singleton] at hfi
          subst hfi
          exact fun hcon => FieldLookup.noConfusion hcon)]
      rfl
    | succ d2 =>
      obtain ⟨F3, rfl⟩ : ∃ F3, F2 = F3 + 1 := ⟨F2 - 1, by omega⟩
      have hxv : serialize (chainHeap i) (F3 + 1)
          (Ser.init baseSerializer (some (((d2 + 1 : Nat) : Int) - 1))
            (st ++ [PyVal.prim (Prim.pint (i : Int))]))
          (PyVal.prim (Prim.pint (i : Int))) = some (JVal.jint (i : Int)) :=
        serialize_prim_eval _ _ _ _
      have h2 := serialize_model_one_field (serialize (chainHeap i) (F3 + 1))
        ((d2 + 1 : Nat) : Int) st (PyVal.prim (Prim.pint (i : Int))) (JVal.jint (i : Int))
        (by exact_mod_cast Nat.succ_pos d2) (any_isId_prim st _) hxv
      rw [h2]
      simp only [expectedChain]
      rw [if_neg (lt_irrefl i)]
  | succ m2 ih =>
    intro i hin d st F hst hF
    have hlt : i < n := by omega
    obtain ⟨F2, rfl⟩ : ∃ F2, F = F2 + 1 := ⟨F - 1, by omega⟩
    have hh : chainHeap n i = some (chainNode n i) := by
      show (if i ≤ n then some (chainNode n i) else none) = _
      rw [if_pos (by omega)]
    have hnode : chainNode n i = PyObj.pydict
        [("v", PyVal.prim (Prim.pint (i : Int))), ("next", PyVal.ref (i + 1))] := by
      unfold chainNode
      rw [if_pos hlt]
    simp only [serialize, hh, hnode]
    cases d with
    | zero =>
      show (serialize_fields_go (serialize (chainHeap n) F2)
          { opts := baseSerializer, depth := some ((0 : Nat) : Int), stack := st }
          (Inst.dictI [("v", PyVal.prim (Prim.pint (i : Int))), ("next", PyVal.ref (i + 1))])
          [("v", RelInfo.noneI), ("next", RelInfo.noneI)] []).map JVal.jobj =
        some (expectedChain n 0 i)
      rw [serialize_fields_go_skip_all _ _ _ ((0 : Nat) : Int) rfl (by simp) _ []
        (fun fi hfi => by
          rcases List.mem_cons.mp hfi with rfl | hfi2
          · exact fun hcon => FieldLookup.noConfusion hcon
          · rw [List.mem_singleton] at hfi2
            subst hfi2
            exact fun hcon => FieldLookup.noConfusion hcon)]
      rfl
    | succ d2 =>
      obtain ⟨F3, rfl⟩ : ∃ F3, F2 = F3 + 1 := ⟨F2 - 1, by omega⟩
      have hcast : (((d2 + 1 : Nat) : Int)) - 1 = ((d2 : Nat) : Int) := by push_cast; ring
      have hxv : serialize (chainHeap n) (F3 + 1)
          (Ser.init baseSerializer (some (((d2 + 1 : Nat) : Int) - 1))
            (st ++ [PyVal.prim (Prim.pint (i : Int))]))
          (PyVal.prim (Prim.pint (i : Int))) = some (JVal.jint (i : Int)) :=
        serialize_prim_eval _ _ _ _
      have hst2 : ∀ k2, i + 1 < k2 → PyVal.ref k2 ∉ st ++ [PyVal.ref (i + 1)] := by
        intro k2 hk2
        rw [List.mem_append]
        push_neg
        constructor
        · exact hst k2 (by omega)
        · rw [List.mem_singleton]
          intro hcon
          injection hcon with h3
          omega
      have hyv : serialize (chainHeap n) (F3 + 1)
          (Ser.init baseSerializer (some (((d2 + 1 : Nat) : Int) - 1))
            (st ++ [PyVal.ref (i + 1)]))
          (PyVal.ref (i + 1)) = some (expectedChain n d2 (i + 1)) := by
        rw [hcast]
        exact ih (i + 1) (by omega) d2 (st ++ [PyVal.ref (i + 1)]) (F3 + 1) hst2 (by omega)
      have h2 := serialize_model_two_field (serialize (chainHeap n) (F3 + 1))
        ((d2 + 1 : Nat) : Int) st (PyVal.prim (Prim.pint (i : Int))) (PyVal.ref (i + 1))
        (JVal.jint (i : Int)) (expectedChain n d2 (i + 1))
        (by exact_mod_cast Nat.succ_pos d2)
        (any_isId_prim st _)
        (any_isId_ref_of_not_mem st (i + 1) (hst (i + 1) (by omega)))
        hxv hyv
      rw [h2]
      simp only [expectedChain]
      rw [if_pos hlt]

theorem chain_eval_none (n : Nat) :
    ∀ (m i : Nat), i + m = n →
    ∀ (st : List PyVal) (F : Nat),
      (∀ k2, i < k2 → PyVal.ref k2 ∉ st) → m + 2 ≤ F →
      serialize (chainHeap n) F
        { opts := baseSerializer, depth := none, stack := st }
        (PyVal.ref i) = some (expectedFull m i) := by
  intro m
  induction m with
  | zero =>
    intro i hin st F hst hF
    obtain rfl : i = n := by omega
    obtain ⟨F2, rfl⟩ : ∃ F2, F = F2 + 1 := ⟨F - 1, by omega⟩
    have hh : chainHeap i i = some (chainNode i i) := by
      show (if i ≤ i then some (chainNode i i) else none) = _
      rw [if_pos (le_refl i)]
    have hnode : chainNode i i = PyObj.pydict [("v", PyVal.prim (Prim.pint (i : Int)))] := by
      unfold chainNode
      rw [if_neg (lt_irrefl i)]
    simp only [serialize, hh, hnode]
    obtain ⟨F3, rfl⟩ : ∃ F3, F2 = F3 + 1 := ⟨F2 - 1, by omega⟩
    have hxv : serialize (chainHeap i) (F3 + 1)
        (Ser.init baseSerializer none (st ++ [PyVal.prim (Prim.pint (i : Int))]))
        (PyVal.prim (Prim.pint (i : Int))) = some (JVal.jint (i : Int)) :=
      serialize_prim_eval _ _ _ _
    have h2 := serialize_model_one_field_none (serialize (chainHeap i) (F3 + 1))
      st (PyVal.prim (Prim.pint (i : Int))) (JVal.jint (i : Int))
      (any_isId_prim st _) hxv
    rw [h2]
    rfl
  | succ m2 ih =>
    intro i hin st F hst hF
    have hlt : i < n := by omega
    obtain ⟨F2, rfl⟩ : ∃ F2, F = F2 + 1 := ⟨F - 1, by omega⟩
    have hh : chainHeap n i = some (chainNode n i) := by
      show (if i ≤ n then some (chainNode n i) else none) = _
      rw [if_pos (by omega)]
    have hnode : chainNode n i = PyObj.pydict
        [("v", PyVal.prim (Prim.pint (i : Int))), ("next", PyVal.ref (i + 1))] := by
      unfold chainNode
      rw [if_pos hlt]
    simp only [serialize, hh, hnode]
    obtain ⟨F3, rfl⟩ : ∃ F3, F2 = F3 + 1 := ⟨F2 - 1, by omega⟩
    have hxv : serialize (chainHeap n) (F3 + 1)
        (Ser.init baseSerializer none (st ++ [PyVal.prim (Prim.pint (i : Int))]))
        (PyVal.prim (Prim.pint (i : Int))) = some (JVal.jint (i : Int)) :=
      serialize_prim_eval _ _ _ _
    have hst2 : ∀ k2, i + 1 < k2 → PyVal.ref k2 ∉ st ++ [PyVal.ref (i + 1)] := by
      intro k2 hk2
      rw [List.mem_append]
      push_neg
      constructor
      · exact hst k2 (by omega)
      · rw [List.mem_singleton]
        intro hcon
        injection hcon with h3
        omega
    have hyv : serialize (chainHeap n) (F3 + 1)
        (Ser.init baseSerializer none (st ++ [PyVal.ref (i + 1)]))
        (PyVal.ref (i + 1)) = some (expectedFull m2 (i + 1)) :=
      ih (i + 1) (by omega) (st ++ [PyVal.ref (i + 1)]) (F3 + 1) hst2 (by omega)
    have h2 := serialize_model_two_field_none (serialize (chainHeap n) (F3 + 1))
      st (PyVal.prim (Prim.pint (i : Int))) (PyVal.ref (i + 1))
      (JVal.jint (i : Int)) (expectedFull m2 (i + 1))
      (any_isId_prim st _)
      (any_isId_ref_of_not_mem st (i + 1) (hst (i + 1) (by omega)))
      hxv hyv
    rw [h2]
    simp only [expectedFull]

theorem nextPath_expectedChain : ∀ (k d i n : Nat), k ≤ d → i + k ≤ n →
    nextPath (expectedChain n d i) k = some (expectedChain n (d - k) (i + k)) := by
  intro k
  induction k with
  | zero =>
    intro d i n _ _
    simp [nextPath]
  | succ k2 ih =>
    intro d i n hkd hin
    obtain ⟨d2, rfl⟩ : ∃ d2, d = d2 + 1 := ⟨d - 1, by omega⟩
    have hlt : i < n := by omega
    have he : expectedChain n (d2 + 1) i =
        JVal.jobj [("v", JVal.jint (i : Int)), ("next", expectedChain n d2 (i + 1))] := by
      simp only [expectedChain]
      rw [if_pos hlt]
    rw [he]
    show nextPath (expectedChain n d2 (i + 1)) k2 = _
    rw [ih d2 (i + 1) n (by omega) (by omega)]
    have h3 : d2 + 1 - (k2 + 1) = d2 - k2 := by omega
    have h4 : i + (k2 + 1) = i + 1 + k2 := by omega
    rw [h3, h4]

theorem nextPath_add : ∀ (a : Nat) (x : JVal) (b : Nat),
    nextPath x (a + b) = (nextPath x a).bind (fun y => nextPath y b) := by
  intro a
  induction a with
  | zero =>
    intro x b
    simp [nextPath]
  | succ a2 ih =>
    intro x b
    have hrw : a2 + 1 + b = (a2 + b) + 1 := by omega
    rw [hrw]
    cases hl : jlookup x "next" with
    | none => simp [nextPath, hl]
    | some j => simp [nextPath, hl, ih]

theorem nextPath_expectedFull : ∀ (m i : Nat),
    nextPath (expectedFull m i) m =
      some (JVal.jobj [("v", JVal.jint ((i + m : Nat) : Int))]) := by
  intro m
  induction m with
  | zero =>
    intro i
    simp [expectedFull, nextPath]
  | succ m2 ih =>
    intro i
    show nextPath (expectedFull m2 (i + 1)) m2 = _
    rw [ih (i + 1)]
    have h3 : i + 1 + m2 = i + (m2 + 1) := by omega
    rw [h3]

/-- Claim C2: depth policy on a chain of N+1 related dicts nested below a
root node, against a serializer configured with depth=N.  The output
equals expectedChain, whose shape makes the policy explicit: following
the next key N times is still possible (the N-th nested mapping is
present, though with all its fields dropped since its remaining depth is
0), while the (N+1)-th level is omitted.  With depth=None the same chain
expands in full and the deepest node keeps its field: depth never
truncates.  With depth=0 every field of the root is omitted at once. -/
theorem claim_C2_depth_policy (N : Nat) :
    (serialize (chainHeap (N + 1)) (N + 4)
        (Ser.init baseSerializer (some (N : Int)) []) (PyVal.ref 0) =
      some (expectedChain (N + 1) N 0)) ∧
    nextPath (expectedChain (N + 1) N 0) N = some (JVal.jobj []) ∧
    nextPath (expectedChain (N + 1) N 0) (N + 1) = none ∧
    (serialize (chainHeap (N + 1)) (N + 4)
        (Ser.init baseSerializer none []) (PyVal.ref 0) =
      some (expectedFull (N + 1) 0)) ∧
    nextPath (expectedFull (N + 1) 0) (N + 1) =
      some (JVal.jobj [("v", JVal.jint ((N + 1 : Nat) : Int))]) ∧
    (serialize (chainHeap (N + 1)) (N + 4)
        (Ser.init baseSerializer (some (0 : Int)) []) (PyVal.ref 0) =
      some (JVal.jobj [])) := by
  have hstack : ∀ k2 : Nat, 0 < k2 → PyVal.ref k2 ∉ ([] : List PyVal) :=
    fun k2 _ => List.not_mem_nil _
  have h1 := chain_eval (N + 1) (N + 1) 0 (by omega) N [] (N + 4) hstack (by omega)
  have h2 := nextPath_expectedChain N N 0 (N + 1) (le_refl N) (by omega)
  have h2b : nextPath (expectedChain (N + 1) N 0) N = some (JVal.jobj []) := by
    rw [h2]
    have h5 : N - N = 0 := by omega
    rw [h5]
    rfl
  refine ⟨h1, h2b, ?_, ?_, ?_, ?_⟩
  · rw [nextPath_add N (expectedChain (N + 1) N 0) 1, h2b]
    rfl
  · exact chain_eval_none (N + 1) (N + 1) 0 (by omega) [] (N + 4) hstack (by omega)
  · have h7 := nextPath_expectedFull (N + 1) 0
    rw [show 0 + (N + 1) = N + 1 from by omega] at h7
    exact h7
  · exact chain_eval (N + 1) (N + 1) 0 (by omega) 0 [] (N + 4) hstack (by omega)
